import Mathlib

/-!
Verification development for the `gocondense` condensation engine
(`formatter.go` / `condenser.go`).

The engine works on a parsed Go file: an AST whose nodes carry byte
positions, together with the `token.File` line table (the sorted list of
byte offsets at which lines start).  Condensing a node means removing the
line-start entries that fall inside the node's span (`token.File.MergeLine`
driven by `condenser.removeLines`); the final text is produced by the
external `go/format` printer from the AST and the mutated line table.

The embedding below mirrors the source functions one-to-one:

* `lineOf`, `removeLinesL`, `addNewline` model `token.File` positions,
  `MergeLine` loops and `SetLines` insertion exactly as the condenser
  drives them;
* `Expr`/`FieldListT`/`FuncTy`/`Block`/`Decl` mirror the `go/ast` shapes
  that `condenser.go` inspects (each node stores its `Pos()`/`End()` span);
* the external renderer `format.Node` is an explicit parameter
  (`RenderFn`): the engine only ever observes the per-line byte length and
  tab count of a node's rendering, which is what a `RenderFn` returns
  (`none` models a `format.Node` error);
* `condenseExpr`, `condenseCallExpr`, `condenseCompositeLit`,
  `condenseBasicLit`, `condenseFieldList`, `condenseFuncType`,
  `condenseFuncLit`, `condenseFuncDecl`, `replaceGenDecl`, `canCondense`,
  `condenseNode`, `hasCommentsInRange` are translated from
  `condenser.go`; the traversal (`walk*`) models
  `astutil.Apply(file, applyPre, applyPost)` as driven by
  `Formatter.Format`.
-/

set_option linter.unusedVariables false
set_option linter.unreachableTactic false
set_option linter.unnecessarySeqFocus false
set_option linter.unusedTactic false

namespace GoCondense

/-- Byte span of a node: `s` = `Pos()` (offset of first byte),
`t` = `End()` (offset just past the last byte). -/
structure Span where
  s : Nat
  t : Nat
deriving DecidableEq, Repr

/-- `Feature` is a bitmask (`type Feature uint`). -/
abbrev Feature := Nat

/-- `func (f Feature) has(flag Feature) bool { return f&flag != 0 }` -/
def featHas (f flag : Feature) : Bool := f.land flag != 0

/-- `Declarations Feature = 1 << iota` -/
def Declarations : Feature := 1
/-- `Types` -/
def Types : Feature := 2
/-- `Funcs` -/
def Funcs : Feature := 4
/-- `Literals` -/
def Literals : Feature := 8
/-- `Calls` -/
def Calls : Feature := 16
/-- `Structs` -/
def Structs : Feature := 32
/-- `Slices` -/
def Slices : Feature := 64
/-- `Maps` -/
def Maps : Feature := 128
/-- `All = Declarations | Types | Funcs | Literals | Calls | Structs | Slices | Maps` -/
def All : Feature := 255

/-- `Config` from `formatter.go` (MaxLen, TabWidth, MaxKeyValue, Enable). -/
structure Config where
  maxLen : Nat
  tabWidth : Nat
  maxKeyValue : Nat
  enable : Feature
deriving DecidableEq, Repr

/-- `DefaultConfig = &Config{MaxLen: 80, TabWidth: 4, MaxKeyValue: 3, Enable: All}` -/
def DefaultConfig : Config := ⟨80, 4, 3, All⟩

/-- `token.Kind` of a `BasicLit`; only `token.STRING` matters to the condenser. -/
inductive LitKind where
  | int | float | imag | char | str
deriving DecidableEq, Repr

mutual
/-- The `go/ast` expression shapes `condenser.condenseExpr` distinguishes.
`atom` stands for every expression kind handled by the `default` branch
(`Ident`, `SelectorExpr`, `StarExpr`, `ParenExpr`, ...), which the
condenser treats purely through its span. -/
inductive Expr where
  | basicLit (kind : LitKind) (value : String) (sp : Span)
  | binary (x y : Expr) (sp : Span)
  | call (fn : Expr) (args : List Expr) (sp : Span)
  | composite (typ : Option Expr) (elts : List Expr) (sp : Span)
  | funcLit (ft : FuncTy) (body : Block) (sp : Span)
  | funcTypeE (ft : FuncTy)
  | interfaceType (sp : Span)
  | keyValue (k v : Expr) (sp : Span)
  | mapType (k v : Expr) (sp : Span)
  | structType (numFields : Nat) (sp : Span)
  | bad (sp : Span)
  | atom (sp : Span)
deriving Repr

/-- `ast.BlockStmt`: its span and the expressions of its statements
(`len(lit.Body.List)` is `stmts.length`). -/
inductive Block where
  | mk (stmts : List Expr) (sp : Span)
deriving Repr

/-- `ast.Field`: the condenser only inspects `field.Type`. -/
inductive Field where
  | mk (typ : Expr)
deriving Repr

/-- `ast.FieldList` with its `Pos()`/`End()` span (opening to closing paren). -/
inductive FieldListT where
  | mk (fields : List Field) (sp : Span)
deriving Repr

/-- `ast.FuncType`: optional TypeParams, Params, Results field lists. -/
inductive FuncTy where
  | mk (tparams params results : Option FieldListT) (sp : Span)
deriving Repr
end

/-- Span accessor (`node.Pos()`/`node.End()`). -/
def Expr.span : Expr → Span
  | .basicLit _ _ sp => sp
  | .binary _ _ sp => sp
  | .call _ _ sp => sp
  | .composite _ _ sp => sp
  | .funcLit _ _ sp => sp
  | .funcTypeE (.mk _ _ _ sp) => sp
  | .interfaceType sp => sp
  | .keyValue _ _ sp => sp
  | .mapType _ _ sp => sp
  | .structType _ sp => sp
  | .bad sp => sp
  | .atom sp => sp

/-- Span of a block. -/
def Block.span : Block → Span
  | .mk _ sp => sp

/-- Statements of a block. -/
def Block.stmts : Block → List Expr
  | .mk ss _ => ss

/-- Type of a field. -/
def Field.typ : Field → Expr
  | .mk t => t

/-- Fields of a field list. -/
def FieldListT.fields : FieldListT → List Field
  | .mk fs _ => fs

/-- Span of a field list. -/
def FieldListT.span : FieldListT → Span
  | .mk _ sp => sp

/-- Span of a func type. -/
def FuncTy.span : FuncTy → Span
  | .mk _ _ _ sp => sp

/-- TypeParams of a func type. -/
def FuncTy.tparams : FuncTy → Option FieldListT
  | .mk tp _ _ _ => tp

/-- Params of a func type. -/
def FuncTy.params : FuncTy → Option FieldListT
  | .mk _ ps _ _ => ps

/-- Results of a func type. -/
def FuncTy.results : FuncTy → Option FieldListT
  | .mk _ _ rs _ => rs

/-- `ast.Spec` inside a `GenDecl`: a `ValueSpec`/`ImportSpec` (whose
expressions the traversal visits) or a `TypeSpec` (whose TypeParams get
`condenseFieldList(_, Types)` in `applyPre`). -/
inductive Spec where
  | val (exprs : List Expr) (sp : Span)
  | typeS (tparams : Option FieldListT) (typ : Expr) (sp : Span)
deriving Repr

/-- Top-level declarations the traversal visits: `ast.GenDecl` (with
`Lparen` validity and its specs) and `ast.FuncDecl`. -/
inductive Decl where
  | gen (lparen : Bool) (specs : List Spec) (sp : Span)
  | func (recv : Option FieldListT) (ft : FuncTy) (body : Option Block) (sp : Span)
deriving Repr

/-- Span of a spec. -/
def Spec.span : Spec → Span
  | .val _ sp => sp
  | .typeS _ _ sp => sp

/-- Span of a declaration. -/
def Decl.span : Decl → Span
  | .gen _ _ sp => sp
  | .func _ _ _ sp => sp

/-- `ast.Node` as passed to `format.Node` by `canCondense`: either an
existing node or the condensed `GenDecl` built by `replaceGenDecl`
(`&ast.GenDecl{Doc, Tok, TokPos, Specs}`, parens dropped). -/
inductive GoNode where
  | expr (x : Expr)
  | fieldList (l : FieldListT)
  | funcT (ft : FuncTy)
  | decl (d : Decl)
deriving Repr

/-- Span of a `GoNode`. -/
def GoNode.span : GoNode → Span
  | .expr x => x.span
  | .fieldList l => l.span
  | .funcT ft => ft.span
  | .decl d => d.span

/-- One line of a node's rendering, as the engine observes it:
its byte length and the number of tab bytes it contains
(`len(line)` and `bytes.Count(line, []byte{'\t'})`). -/
structure RLine where
  len : Nat
  tabs : Nat
deriving DecidableEq, Repr

/-- The external renderer `format.Node(&buf, fset, node)`: given a node and
the current line table it yields the lines of the node's rendering
(`none` models a rendering error, in which case `canCondense` returns
true). The engine drives it but does not implement it. -/
abbrev RenderFn := GoNode → List Nat → Option (List RLine)

/-- The read-only inputs of one `condenser` value: the configuration, the
comment spans of `file.Comments`, and the renderer. -/
structure Env where
  config : Config
  comments : List Span
  render : RenderFn

/-- `addLines` entry: `e.addLines[lit.Body] = [2]int{line(bodyPos), line(bodyEnd)}`,
keyed by the body's span. -/
structure AddEntry where
  key : Span
  lineA : Nat
  lineB : Nat
deriving DecidableEq, Repr

/-- Mutable state of one invocation: the `token.File` line table (sorted
line-start byte offsets, first entry `0`) and the `addLines` map. -/
structure St where
  lines : List Nat
  addLines : List AddEntry
deriving DecidableEq, Repr

/-- `fset.Position(pos).Line`: the 1-based line number of a byte offset,
i.e. the number of line starts at or before it. -/
def lineOf (lines : List Nat) (pos : Nat) : Nat :=
  lines.countP (fun o => decide (o ≤ pos))

/-- `condenser.removeLines(fromLine, toLine)`: repeated
`tokenFile.MergeLine(fromLine)`, which deletes the line-start entries of
lines `fromLine+1 .. toLine` (0-based indices `fromLine .. toLine-1`). -/
def removeLinesL (lines : List Nat) (fromL toL : Nat) : List Nat :=
  if fromL < toL then lines.take fromL ++ lines.drop toL else lines

/-- `condenser.addNewline(pos)`: binary-search insert of the offset into the
line table unless already present (`slices.BinarySearch` + `slices.Insert`
+ `SetLines`). -/
def addNewline (lines : List Nat) (off : Nat) : List Nat :=
  if off ∈ lines then lines
  else lines.takeWhile (fun o => decide (o < off)) ++ off :: lines.dropWhile (fun o => decide (o < off))

/-- `condenser.hasCommentsInRange(start, end)`: some comment group `cg`
has `cg.Pos() >= start && cg.End() <= end`. -/
def hasCommentsInRange (comments : List Span) (start stop : Nat) : Bool :=
  comments.any (fun c => decide (start ≤ c.s) && decide (c.t ≤ stop))

/-- `condenser.hasComments(node)`. -/
def hasComments (env : Env) (sp : Span) : Bool :=
  hasCommentsInRange env.comments sp.s sp.t

/-- `condenser.isSingleLine(node)`: `line(node.Pos()) == line(node.End())`. -/
def isSingleLine (lines : List Nat) (sp : Span) : Bool :=
  lineOf lines sp.s == lineOf lines sp.t

/-- `isComplexExpr` from `formatter.go`: composite literal, func literal,
call, or interface type. -/
def isComplexExpr : Expr → Bool
  | .composite .. => true
  | .funcLit .. => true
  | .call .. => true
  | .interfaceType .. => true
  | _ => false

/-- Whether an element is an `*ast.KeyValueExpr` (the composite-literal
classification loop). -/
def isKeyValue : Expr → Bool
  | .keyValue .. => true
  | _ => false

/-- The `switch lit.Type.(type)` of `condenseCompositeLit`: `MapType → Maps`,
`StructType → Structs`, otherwise `Structs` if some element is a key-value
pair, else `Slices`. -/
def compositeFeature (typ : Option Expr) (elts : List Expr) : Feature :=
  match typ with
  | some (.mapType ..) => Maps
  | some (.structType ..) => Structs
  | _ => if elts.any isKeyValue then Structs else Slices

/-- `condenser.canCondense(node)`: renders the node (alone) and checks that
every line of the rendering satisfies
`len(line) + count(line, '\t')*tabWidth - 1 <= maxLen`, with the zero
fallbacks to `DefaultConfig` for `MaxLen` and `TabWidth`.  A rendering
error yields `true`. -/
def canCondense (env : Env) (node : GoNode) (lines : List Nat) : Bool :=
  let maxLen := if env.config.maxLen = 0 then DefaultConfig.maxLen else env.config.maxLen
  let tabWidth := if env.config.tabWidth = 0 then DefaultConfig.tabWidth else env.config.tabWidth
  match env.render node lines with
  | none => true
  | some ls => ls.all (fun l => decide ((l.len : Int) + l.tabs * tabWidth - 1 ≤ (maxLen : Int)))

/-- `condenser.condenseNode(node)`: if not already single-line, snapshot the
line table, merge the node's lines, and keep the merge only if
`canCondense` still holds; otherwise restore the snapshot and report
failure. -/
def condenseNode (env : Env) (node : GoNode) (st : St) : Bool × St :=
  if isSingleLine st.lines node.span then (true, st)
  else
    let backup := st.lines
    let merged := removeLinesL st.lines (lineOf backup node.span.s) (lineOf backup node.span.t)
    if !canCondense env node merged then (false, { st with lines := backup })
    else (isSingleLine merged node.span, { st with lines := merged })

/-- `condenser.condenseBasicLit(lit)`: anything but a raw string literal is
condensed via `condenseNode`; a raw string literal containing a newline is
never condensed. -/
def condenseBasicLit (env : Env) (kind : LitKind) (value : String) (sp : Span) (st : St) : Bool × St :=
  if !(kind = LitKind.str) || value.length < 2 || !(value.startsWith "`") then
    condenseNode env (.expr (.basicLit kind value sp)) st
  else if value.contains '\n' then (false, st)
  else condenseNode env (.expr (.basicLit kind value sp)) st

/-- Record `e.addLines[key] = [2]int{a, b}` (map assignment: replaces any
previous entry for the same key). -/
def insertAddLines (st : St) (key : Span) (a b : Nat) : St :=
  { st with addLines := ⟨key, a, b⟩ :: st.addLines.filter (fun en => en.key ≠ key) }

/-- A selector naming one of the three sub-lists of a func type, used to
write down the combination list of `condenseFuncType`. -/
inductive Pick where
  | tp | ps | rs
deriving DecidableEq, Repr

/-- The field list a selector picks out of a func type. -/
def pickField (ft : FuncTy) : Pick → Option FieldListT
  | .tp => ft.tparams
  | .ps => ft.params
  | .rs => ft.results

/-- `allOK(condensers ...bool)`: no `false` among the results. -/
def allOK (a b : Bool) : Bool := a && b

mutual
/-- `condenser.condenseExpr(expr)`: comments block everything; single-line
expressions are fine; otherwise dispatch on the node kind, with the
`default` branch condensing via `condenseNode`. -/
def condenseExpr (env : Env) (x : Expr) (st : St) : Bool × St :=
  if hasComments env x.span then (false, st)
  else if isSingleLine st.lines x.span then (true, st)
  else
    match x with
    | .basicLit kind value sp => condenseBasicLit env kind value sp st
    | .binary a b _ =>
      let r1 := condenseExpr env a st
      let r2 := condenseExpr env b r1.2
      (allOK r1.1 r2.1, r2.2)
    | .call fn args sp => condenseCallExpr env fn args sp st
    | .composite typ elts sp => condenseCompositeLit env typ elts sp st
    | .funcLit ft body sp => condenseFuncLit env ft body sp st
    | .funcTypeE _ => (false, st)
    | .interfaceType _ => (false, st)
    | .keyValue k v _ =>
      let r1 := condenseExpr env k st
      let r2 := condenseExpr env v r1.2
      (allOK r1.1 r2.1, r2.2)
    | .mapType k v _ =>
      let r1 := condenseExpr env k st
      let r2 := condenseExpr env v r1.2
      (allOK r1.1 r2.1, r2.2)
    | .structType numFields _ =>
      if !(featHas env.config.enable Structs) || numFields > 0 then (false, st)
      else condenseNode env (.expr x) st
    | .bad _ => (false, st)
    | .atom _ => condenseNode env (.expr x) st
termination_by (sizeOf x, 1)

/-- The argument/element loop: condense every expression in order, and
report whether all succeeded (the Go loop keeps going after a failure). -/
def condenseExprList (env : Env) (xs : List Expr) (st : St) : Bool × St :=
  match xs with
  | [] => (true, st)
  | x :: rest =>
    let r1 := condenseExpr env x st
    let r2 := condenseExprList env rest r1.2
    (r1.1 && r2.1, r2.2)
termination_by (sizeOf xs, 1)

/-- `condenser.condenseCallExpr(call)`. -/
def condenseCallExpr (env : Env) (fn : Expr) (args : List Expr) (sp : Span) (st : St) : Bool × St :=
  if !(featHas env.config.enable Calls) || hasComments env sp then (false, st)
  else if isSingleLine st.lines sp then (true, st)
  else
    let rFun := condenseExpr env fn st
    let rArgs := condenseExprList env args rFun.2
    if !rArgs.1 then (false, rArgs.2)
    else condenseNode env (.expr (.call fn args sp)) rArgs.2
termination_by (sizeOf (Expr.call fn args sp), 0)

/-- `condenser.condenseCompositeLit(lit)`. -/
def condenseCompositeLit (env : Env) (typ : Option Expr) (elts : List Expr) (sp : Span) (st : St) : Bool × St :=
  if hasComments env sp || elts.any isComplexExpr then (false, st)
  else if isSingleLine st.lines sp then (true, st)
  else
    let feature := compositeFeature typ elts
    if !(featHas env.config.enable feature) then (false, st)
    else if (feature == Structs || feature == Maps) && elts.length > env.config.maxKeyValue then
      (false, st)
    else
      let rElts := condenseExprList env elts st
      if !rElts.1 then (false, rElts.2)
      else condenseNode env (.expr (.composite typ elts sp)) rElts.2
termination_by (sizeOf (Expr.composite typ elts sp), 0)

/-- `condenser.condenseFuncLit(lit)`: registers the body in `addLines` to
protect it, then condenses the func type; succeeds only when the body has
at most one statement. -/
def condenseFuncLit (env : Env) (ft : FuncTy) (body : Block) (sp : Span) (st : St) : Bool × St :=
  if !(featHas env.config.enable Literals) then (false, st)
  else if isSingleLine st.lines sp then (true, st)
  else
    let st1 := insertAddLines st body.span (lineOf st.lines body.span.s) (lineOf st.lines body.span.t)
    let r := condenseFuncType env ft Literals st1
    (r.1 && decide (body.stmts.length ≤ 1), r.2)
termination_by (sizeOf (Expr.funcLit ft body sp), 0)

/-- The `for _, field := range list.List` loop of `condenseFieldList`:
condense every field's type, reporting whether all succeeded. -/
def condenseFieldTypes (env : Env) (fs : List Field) (st : St) : Bool × St :=
  match fs with
  | [] => (true, st)
  | .mk t :: rest =>
    let r1 := condenseExpr env t st
    let r2 := condenseFieldTypes env rest r1.2
    (r1.1 && r2.1, r2.2)
termination_by (sizeOf fs, 1)

/-- `condenser.condenseFieldList(list, feature)` for a non-nil list. -/
def condenseFieldList (env : Env) (fl : FieldListT) (feature : Feature) (st : St) : Bool × St :=
  match fl with
  | .mk fields sp =>
    if isSingleLine st.lines sp then (true, st)
    else if !(featHas env.config.enable feature) || hasComments env sp then (false, st)
    else
      let noComplex := !(fields.any (fun f => isComplexExpr f.typ))
      let rFields := condenseFieldTypes env fields st
      if !(noComplex && rFields.1) then (false, rFields.2)
      else condenseNode env (.fieldList (.mk fields sp)) rFields.2
termination_by (sizeOf fl, 1)

/-- `condenseFieldList` including the `list == nil` acceptance. -/
def condenseFieldListO (env : Env) (o : Option FieldListT) (feature : Feature) (st : St) : Bool × St :=
  match o with
  | none => (true, st)
  | some fl => condenseFieldList env fl feature st
termination_by (sizeOf o, 1)

/-- The field-list loop of one combination:
`for _, field := range fields { if e.condenseFieldList(field, feature) { success++ } }`. -/
def runCombo (env : Env) (ft : FuncTy) (feature : Feature) (picks : List Pick) (st : St) : Nat × St :=
  match picks with
  | [] => (0, st)
  | p :: rest =>
    let r := condenseFieldListO env (pickField ft p) feature st
    let r2 := runCombo env ft feature rest r.2
    ((if r.1 then 1 else 0) + r2.1, r2.2)
termination_by (sizeOf ft, 1 + sizeOf picks)
decreasing_by
  · apply Prod.Lex.left
    cases ft with
    | mk tp ps rs sp => cases p <;> simp [pickField, FuncTy.tparams, FuncTy.params, FuncTy.results] <;> omega
  · apply Prod.Lex.right
    simp
    all_goals omega

/-- The combination loop of `condenser.condenseFuncType`: skip combinations
containing a nil list; otherwise condense the combination's field lists,
and check `canCondense(funcType)`: on success return
`first && len(fields) == success` keeping the merged lines; on failure
restore the entry snapshot of the line table and continue with
`first = false`.  When the loop ends, return `first`. -/
def tryCombos (env : Env) (ft : FuncTy) (feature : Feature) (snapshot : List Nat)
    (combos : List (List Pick)) (first : Bool) (st : St) : Bool × St :=
  match combos with
  | [] => ((first == true), st)
  | combo :: rest =>
    if (combo.map (pickField ft)).any (fun o => o.isNone) then
      tryCombos env ft feature snapshot rest first st
    else
      let r := runCombo env ft feature combo st
      if canCondense env (.funcT ft) r.2.lines then (first && (combo.length == r.1), r.2)
      else tryCombos env ft feature snapshot rest false { r.2 with lines := snapshot }
termination_by (sizeOf ft, 10 + sizeOf combos)
decreasing_by
  · apply Prod.Lex.right
    simp
    all_goals omega
  · apply Prod.Lex.right
    simp
    all_goals omega
  · apply Prod.Lex.right
    simp
    all_goals omega

/-- `condenser.condenseFuncType(funcType, feature)`: the descending
combination list
`{TP,P,R}, {TP,R}, {P,R}, {R}, {TP,P}, {TP}, {P}`
tried by `tryCombos` after the feature gate and single-line shortcut. -/
def condenseFuncType (env : Env) (ft : FuncTy) (feature : Feature) (st : St) : Bool × St :=
  if !(featHas env.config.enable feature) then (true, st)
  else if isSingleLine st.lines ft.span then (true, st)
  else
    tryCombos env ft feature st.lines
      [[.tp, .ps, .rs], [.tp, .rs], [.ps, .rs], [.rs], [.tp, .ps], [.tp], [.ps]] true st
termination_by (sizeOf ft, 10000)
decreasing_by
  apply Prod.Lex.right
  simp
  all_goals omega
end

/-- `condenser.condenseFuncDecl(decl)`: feature gate, single-line shortcut,
then `allOK(condenseFieldList(recv, Funcs), condenseFuncType(type, Funcs))`. -/
def condenseFuncDecl (env : Env) (recv : Option FieldListT) (ft : FuncTy) (sp : Span) (st : St) : Bool × St :=
  if !(featHas env.config.enable Funcs) then (false, st)
  else if isSingleLine st.lines sp then (true, st)
  else
    let r1 := condenseFieldListO env recv Funcs st
    let r2 := condenseFuncType env ft Funcs r1.2
    (allOK r1.1 r2.1, r2.2)

/-- `condenser.replaceGenDecl(decl)` returns a changed node exactly when the
declaration group is condensable: feature enabled, a single spec, grouped
(`Lparen` valid), multi-line, and free of comments. -/
def replaceGenDeclChanged (env : Env) (lparen : Bool) (numSpecs : Nat) (sp : Span) (lines : List Nat) : Bool :=
  !(!(featHas env.config.enable Declarations) || numSpecs > 1 || !lparen ||
    isSingleLine lines sp || hasComments env sp)

/-- `n` iterations of `e.addNewline(pos)` at the same position (the
`for curSize < prevSize` loop of `applyPost`; after the first insertion the
later ones find the offset present and do nothing). -/
def addNewlineTimes (lines : List Nat) (off n : Nat) : List Nat :=
  match n with
  | 0 => lines
  | n + 1 => addNewlineTimes (addNewline lines off) off n

/-- `condenser.applyPost` at a node: if the node is registered in
`addLines`, delete it, re-add the newlines a parent merge stole from the
protected body, and abort the whole traversal (`astutil.Apply` stops when
a post callback returns false) when the map has just become empty. -/
def postBlock (b : Block) (st : St) : St × Bool :=
  match st.addLines.find? (fun en => decide (en.key = b.span)) with
  | none => (st, true)
  | some en =>
    let rest := st.addLines.filter (fun e2 => !decide (e2.key = b.span))
    let curSize := lineOf st.lines b.span.t - lineOf st.lines b.span.s
    let prevSize := en.lineB - en.lineA
    let newLines := addNewlineTimes st.lines (b.span.s + 1) (prevSize - curSize)
    ({ lines := newLines, addLines := rest }, !rest.isEmpty)

mutual
/-- `astutil.Apply` at an expression: `applyPre` (the single-line guard,
then `case ast.Expr: e.condenseExpr(n)`, result discarded), then the
children in `go/ast` field order.  The returned flag is false when a
descendant `applyPost` aborted the traversal. -/
def walkExpr (env : Env) (x : Expr) (st : St) : St × Bool :=
  let st0 := if isSingleLine st.lines x.span then st else (condenseExpr env x st).2
  match x with
  | .binary a b _ =>
    let r1 := walkExpr env a st0
    if !r1.2 then r1 else walkExpr env b r1.1
  | .call fn args _ =>
    let r1 := walkExpr env fn st0
    if !r1.2 then r1 else walkExprs env args r1.1
  | .composite typ elts _ =>
    let r1 := walkExprO env typ st0
    if !r1.2 then r1 else walkExprs env elts r1.1
  | .funcLit ft body _ =>
    let r1 := walkFuncTy env ft st0
    if !r1.2 then r1 else walkBlock env body r1.1
  | .funcTypeE ft => walkFuncTy env ft st0
  | .keyValue k v _ =>
    let r1 := walkExpr env k st0
    if !r1.2 then r1 else walkExpr env v r1.1
  | .mapType k v _ =>
    let r1 := walkExpr env k st0
    if !r1.2 then r1 else walkExpr env v r1.1
  | _ => (st0, true)
termination_by (sizeOf x, 1)

/-- Walk a list of expressions. -/
def walkExprs (env : Env) (xs : List Expr) (st : St) : St × Bool :=
  match xs with
  | [] => (st, true)
  | x :: rest =>
    let r1 := walkExpr env x st
    if !r1.2 then r1 else walkExprs env rest r1.1
termination_by (sizeOf xs, 1)

/-- Walk an optional expression. -/
def walkExprO (env : Env) (o : Option Expr) (st : St) : St × Bool :=
  match o with
  | none => (st, true)
  | some x => walkExpr env x st
termination_by (sizeOf o, 1)

/-- Walk a block: `ast.BlockStmt` has no `applyPre` action of its own; its
statements are walked, and afterwards `applyPost` fires (where the
`addLines` protection and the traversal abort live). -/
def walkBlock (env : Env) (b : Block) (st : St) : St × Bool :=
  match b with
  | .mk stmts sp =>
    let r := walkExprs env stmts st
    if !r.2 then r else postBlock (.mk stmts sp) r.1
termination_by (sizeOf b, 1)

/-- Walk an optional block. -/
def walkBlockO (env : Env) (o : Option Block) (st : St) : St × Bool :=
  match o with
  | none => (st, true)
  | some b => walkBlock env b st

/-- Walk a func type: `*ast.FuncType` is itself an expression, so
`applyPre` runs `condenseExpr` on it (the `*ast.FuncType` case returns
false without touching the state), then its field lists are walked. -/
def walkFuncTy (env : Env) (ft : FuncTy) (st : St) : St × Bool :=
  match ft with
  | .mk tp ps rs sp =>
    let st0 := if isSingleLine st.lines sp then st
               else (condenseExpr env (.funcTypeE (.mk tp ps rs sp)) st).2
    let r1 := walkFieldListO env tp st0
    if !r1.2 then r1 else
    let r2 := walkFieldListO env ps r1.1
    if !r2.2 then r2 else walkFieldListO env rs r2.1
termination_by (sizeOf ft, 1)

/-- Walk a field list: no `applyPre` action (`*ast.FieldList` is not an
expression and not in the switch); the fields' type expressions are
visited. -/
def walkFieldList (env : Env) (fl : FieldListT) (st : St) : St × Bool :=
  match fl with
  | .mk fields _ => walkFields env fields st
termination_by (sizeOf fl, 1)

/-- Walk the fields of a field list. -/
def walkFields (env : Env) (fs : List Field) (st : St) : St × Bool :=
  match fs with
  | [] => (st, true)
  | .mk t :: rest =>
    let r1 := walkExpr env t st
    if !r1.2 then r1 else walkFields env rest r1.1
termination_by (sizeOf fs, 1)

/-- Walk an optional field list. -/
def walkFieldListO (env : Env) (o : Option FieldListT) (st : St) : St × Bool :=
  match o with
  | none => (st, true)
  | some fl => walkFieldList env fl st
termination_by (sizeOf o, 1)
end

/-- Walk a spec: a `ValueSpec`/`ImportSpec` has no `applyPre` action and
its expressions are visited; a `TypeSpec` gets
`e.condenseFieldList(n.TypeParams, Types)` in `applyPre`. -/
def walkSpec (env : Env) (s : Spec) (st : St) : St × Bool :=
  match s with
  | .val exprs _ => walkExprs env exprs st
  | .typeS tparams typ sp =>
    let st0 := if isSingleLine st.lines sp then st
               else (condenseFieldListO env tparams Types st).2
    let r1 := walkFieldListO env tparams st0
    if !r1.2 then r1 else walkExpr env typ r1.1

/-- Walk the specs of a declaration group. -/
def walkSpecs (env : Env) (ss : List Spec) (st : St) : St × Bool :=
  match ss with
  | [] => (st, true)
  | s :: rest =>
    let r1 := walkSpec env s st
    if !r1.2 then r1 else walkSpecs env rest r1.1

/-- Walk a declaration: the `applyPre` cases for `*ast.GenDecl`
(replace + merge if `replaceGenDecl` changed the node and `canCondense`
accepts the condensed rendering) and `*ast.FuncDecl`
(`e.condenseFuncDecl(n)`), then the children. -/
def walkDecl (env : Env) (d : Decl) (st : St) : St × Bool :=
  match d with
  | .gen lparen specs sp =>
    let st0 :=
      if isSingleLine st.lines sp then st
      else if replaceGenDeclChanged env lparen specs.length sp st.lines &&
              canCondense env (.decl (.gen false specs sp)) st.lines then
        { st with lines := removeLinesL st.lines (lineOf st.lines sp.s) (lineOf st.lines sp.t) }
      else st
    walkSpecs env specs st0
  | .func recv ft body sp =>
    let st0 := if isSingleLine st.lines sp then st
               else (condenseFuncDecl env recv ft sp st).2
    let r1 := walkFieldListO env recv st0
    if !r1.2 then r1 else
    let r2 := walkFuncTy env ft r1.1
    if !r2.2 then r2 else walkBlockO env body r2.1

/-- Walk the declarations of a file in order, stopping when a post
callback aborts the traversal. -/
def walkDecls (env : Env) (ds : List Decl) (st : St) : St × Bool :=
  match ds with
  | [] => (st, true)
  | d :: rest =>
    let r1 := walkDecl env d st
    if !r1.2 then r1 else walkDecls env rest r1.1

/-- Result of `parser.ParseFile` as `Formatter.Format` consumes it: a parse
error, or the file (declarations + line table) together with its
`ast.IsGenerated` flag. -/
inductive ParseResult where
  | err (msg : String)
  | ok (decls : List Decl) (st : St) (generated : Bool)

/-- `Formatter.Format(src)`: parse (error short-circuits), the
`ast.IsGenerated` no-op shortcut returning the source bytes unchanged,
the `astutil.Apply` traversal, and the final `format.Node` print of the
whole file (the external printer is a parameter; `none` models its error
path). -/
def FormatRun (env : Env) (printer : List Decl → St → Option String) (src : String)
    (pr : ParseResult) : Except String String :=
  match pr with
  | .err msg => .error ("failed to parse source: " ++ msg)
  | .ok decls st generated =>
    if generated then .ok src
    else
      match printer decls (walkDecls env decls st).1 with
      | none => .error "failed to format AST"
      | some out => .ok out


/-! ### Well-formedness of parser output

`go/parser` output satisfies these positional invariants: a node's span is
ordered, and every child's span lies inside its parent's.  A block spans at
least its two braces.  The engine relies on them implicitly; the frame
lemmas below take them as hypotheses. -/

/-- `inner` lies within `outer`. -/
def Span.subB (inner outer : Span) : Bool :=
  decide (outer.s ≤ inner.s) && decide (inner.t ≤ outer.t)

mutual
/-- Positional well-formedness of an expression. -/
def exprWfB : Expr → Bool
  | .basicLit _ _ sp => decide (sp.s ≤ sp.t)
  | .binary a b sp => decide (sp.s ≤ sp.t) && exprInB a sp && exprInB b sp
  | .call fn args sp => decide (sp.s ≤ sp.t) && exprInB fn sp && exprsInB args sp
  | .composite typ elts sp =>
    decide (sp.s ≤ sp.t) && (match typ with | none => true | some ty => exprInB ty sp) &&
      exprsInB elts sp
  | .funcLit ft body sp =>
    decide (sp.s ≤ sp.t) && Span.subB ft.span sp && funcTyWfB ft &&
      Span.subB body.span sp && blockWfB body
  | .funcTypeE ft => funcTyWfB ft
  | .interfaceType sp => decide (sp.s ≤ sp.t)
  | .keyValue k v sp => decide (sp.s ≤ sp.t) && exprInB k sp && exprInB v sp
  | .mapType k v sp => decide (sp.s ≤ sp.t) && exprInB k sp && exprInB v sp
  | .structType _ sp => decide (sp.s ≤ sp.t)
  | .bad sp => decide (sp.s ≤ sp.t)
  | .atom sp => decide (sp.s ≤ sp.t)
termination_by x => (sizeOf x, 1)

/-- The expression is well-formed and lies within `sp`. -/
def exprInB (x : Expr) (sp : Span) : Bool :=
  Span.subB x.span sp && exprWfB x
termination_by (sizeOf x, 2)

/-- All expressions well-formed and within `sp`. -/
def exprsInB (xs : List Expr) (sp : Span) : Bool :=
  match xs with
  | [] => true
  | x :: rest => exprInB x sp && exprsInB rest sp
termination_by (sizeOf xs, 1)

/-- Positional well-formedness of a block (`{` ... `}` spans at least two
bytes, statements inside). -/
def blockWfB : Block → Bool
  | .mk stmts sp => decide (sp.s < sp.t) && exprsInB stmts sp
termination_by b => (sizeOf b, 1)

/-- Positional well-formedness of a field list. -/
def fieldListWfB : FieldListT → Bool
  | .mk fields sp => decide (sp.s ≤ sp.t) && fieldsInB fields sp
termination_by fl => (sizeOf fl, 1)

/-- All field types well-formed and within `sp`. -/
def fieldsInB (fs : List Field) (sp : Span) : Bool :=
  match fs with
  | [] => true
  | .mk t :: rest => exprInB t sp && fieldsInB rest sp
termination_by (sizeOf fs, 1)

/-- Optional field list well-formed and within `sp`. -/
def optFieldListInB (o : Option FieldListT) (sp : Span) : Bool :=
  match o with
  | none => true
  | some fl => Span.subB fl.span sp && fieldListWfB fl
termination_by (sizeOf o, 2)

/-- Positional well-formedness of a func type. -/
def funcTyWfB : FuncTy → Bool
  | .mk tp ps rs sp =>
    decide (sp.s ≤ sp.t) && optFieldListInB tp sp && optFieldListInB ps sp && optFieldListInB rs sp
termination_by ft => (sizeOf ft, 1)
end

/-- Positional well-formedness of a spec. -/
def specWfB : Spec → Bool
  | .val exprs sp => decide (sp.s ≤ sp.t) && exprsInB exprs sp
  | .typeS tparams typ sp => decide (sp.s ≤ sp.t) && optFieldListInB tparams sp && exprInB typ sp

/-- All specs well-formed and within `sp`. -/
def specsInB (ss : List Spec) (sp : Span) : Bool :=
  ss.all (fun s => Span.subB s.span sp && specWfB s)

/-- Positional well-formedness of a declaration. -/
def declWfB : Decl → Bool
  | .gen _ specs sp => decide (sp.s ≤ sp.t) && specsInB specs sp
  | .func recv ft body sp =>
    decide (sp.s ≤ sp.t) && optFieldListInB recv sp && Span.subB ft.span sp && funcTyWfB ft &&
      (match body with | none => true | some b => Span.subB b.span sp && blockWfB b)

/-- All declarations of a file well-formed. -/
def declsWfB (ds : List Decl) : Bool := ds.all declWfB

/-- The line table of `go/token` is strictly increasing. -/
def SortedL (l : List Nat) : Prop := List.Pairwise (· < ·) l

/-- Frame property of one engine step at a node with span `sp`: the line
table stays sorted and the membership of every offset outside `(sp.s, sp.t]`
is untouched (only line starts strictly inside a span, i.e. in
`(Pos, End]`, are ever merged away or re-inserted). -/
def FrameOK (sp : Span) (st st' : St) : Prop :=
  SortedL st'.lines ∧ ∀ o : Nat, (o ≤ sp.s ∨ sp.t < o) → (o ∈ st'.lines ↔ o ∈ st.lines)

/-- The tab-expanded visual width of a rendered line whose tabs are leading
indentation: each tab byte occupies `tabWidth` columns instead of one. -/
def actualWidth (l : RLine) (tabWidth : Nat) : Nat :=
  l.len + l.tabs * (tabWidth - 1)

/-- Modelled from the spec: the per-category limits override
(`overrides: optional per-category (maxLength, maxItems) pairs`).  The
`Override`/`ConfigOverride` mechanism is referenced by this repository's
tests and command-line driver but its implementation is not under `src/`;
only the global `Config` fields are. -/
structure ConfigOverride where
  maxLen : Nat
  maxItems : Nat
deriving DecidableEq, Repr

/-- Modelled from the spec: `limits(category) -> (maxLength, maxItems)`
merging override-then-global-then-default, where an unset/zero override
falls back to the global value and an unset/zero global value falls back
to the documented defaults (length 80, item ceiling 3). -/
def limits (c : Config) (ov : Feature → Option ConfigOverride) (feat : Feature) : Nat × Nat :=
  let o := (ov feat).getD ⟨0, 0⟩
  (if o.maxLen ≠ 0 then o.maxLen else if c.maxLen ≠ 0 then c.maxLen else DefaultConfig.maxLen,
   if o.maxItems ≠ 0 then o.maxItems
   else if c.maxKeyValue ≠ 0 then c.maxKeyValue else DefaultConfig.maxKeyValue)

/-- Modelled from the spec (design note on signature-like constructs): try
a descending set of partial condensations of the sub-lists, accept the
first whose rendering fits the length ceiling, and fall back to the fully
multi-line layout when none fits.  Each attempt starts from the entry line
table; the body-protection bookkeeping (`addLines`) rides along unchanged,
as the policy concerns only line layout.  This is the claim-side reference
against which `condenseFuncType` is compared. -/
def specFirstFitGo (env : Env) (feature : Feature) (ftN : GoNode) (snapshot : List Nat) :
    List (List (Option FieldListT)) → St → St
  | [], s => { s with lines := snapshot }
  | combo :: rest, s =>
    if combo.any (fun o => o.isNone) then specFirstFitGo env feature ftN snapshot rest s
    else
      let sEnd := combo.foldl (fun s2 o => (condenseFieldListO env o feature s2).2) s
      if canCondense env ftN sEnd.lines then sEnd
      else specFirstFitGo env feature ftN snapshot rest { sEnd with lines := snapshot }

/-- The descending combination list of the spec policy, instantiated with
a func type's sub-lists (type parameters, value parameters, results). -/
def specFirstFit (env : Env) (ft : FuncTy) (feature : Feature) (st : St) : St :=
  match ft with
  | .mk tp ps rs _ =>
    specFirstFitGo env feature (.funcT ft) st.lines
      [[tp, ps, rs], [tp, rs], [ps, rs], [rs], [tp, ps], [tp], [ps]] st

/-! ### Concrete instances

Concrete files, line tables and renderer instances used by the
counterexample/witness theorems.  Renderer values give, for each node the
engine actually renders, the line metrics of its canonical `go/format`
output (documented next to each case). -/

/-! #### Claim C1: the non-idempotence input

Run 1 input (`gofmt`-canonical, 9 lines):
```
package main\n            line 1, offset 0
\n                         line 2, offset 13
var f = func(\n            line 3, offset 14
\ta int,\n                 line 4, offset 28
) int { return a }\n       line 5, offset 36
\n                         line 6, offset 55
var (\n                    line 7, offset 56
\tx = 1\n                  line 8, offset 62
)\n                        line 9, offset 69
```
-/

/-- Params `(\n\ta int,\n)` of the C1 func literal: one field `a int`. -/
def fl1params : FieldListT := .mk [.mk (.atom ⟨31, 34⟩)] ⟨26, 37⟩
/-- Results `int` (no parens). -/
def fl1results : FieldListT := .mk [.mk (.atom ⟨38, 41⟩)] ⟨38, 41⟩
/-- The func literal's type `func(\n\ta int,\n) int`. -/
def ft1 : FuncTy := .mk none (some fl1params) (some fl1results) ⟨22, 41⟩
/-- The single-line body `{ return a }` on line 5. -/
def body1 : Block := .mk [.atom ⟨44, 52⟩] ⟨42, 54⟩
/-- `func(\n\ta int,\n) int { return a }`. -/
def funcLit1 : Expr := .funcLit ft1 body1 ⟨22, 54⟩
/-- `var f = func(...) ...` (no declaration parens). -/
def declC1a : Decl := .gen false [.val [.atom ⟨18, 19⟩, funcLit1] ⟨18, 54⟩] ⟨14, 54⟩
/-- `var (\n\tx = 1\n)` — a condensable single-spec group after the func. -/
def declC1b : Decl := .gen true [.val [.atom ⟨63, 64⟩, .atom ⟨67, 68⟩] ⟨63, 68⟩] ⟨56, 70⟩
/-- The two declarations of the run-1 file. -/
def fileC1run1 : List Decl := [declC1a, declC1b]
/-- Run-1 line table. -/
def stC1run1 : St := ⟨[0, 13, 14, 28, 36, 55, 56, 62, 69], []⟩

/-- Renderer for the C1 nodes `canCondense` consults:
`(a int)` (7 bytes), `func(a int) int` (15 bytes), and — in run 2 — the
condensed declaration `var x = 1` (9 bytes).  All fit within 80. -/
def renderC1 : RenderFn := fun n _ =>
  match n with
  | .fieldList (.mk _ (Span.mk 26 37)) => some [⟨7, 0⟩]
  | .funcT (.mk _ _ _ (Span.mk 22 41)) => some [⟨15, 0⟩]
  | .decl (.gen _ _ (Span.mk 52 66)) => some [⟨9, 0⟩]
  | _ => some [⟨1, 0⟩]

/-- Default configuration, no comments. -/
def envC1 : Env := { config := DefaultConfig, comments := [], render := renderC1 }

/-! Run 2 input: the reparse of run 1's output
```
package main\n                         line 1, offset 0
\n                                      line 2, offset 13
var f = func(a int) int { return a }\n  line 3, offset 14
\n                                      line 4, offset 51
var (\n                                 line 5, offset 52
\tx = 1\n                               line 6, offset 58
)\n                                     line 7, offset 65
```
-/

/-- Run-2 params `(a int)`, now single-line. -/
def fl2params : FieldListT := .mk [.mk (.atom ⟨27, 32⟩)] ⟨26, 33⟩
/-- Run-2 results `int`. -/
def fl2results : FieldListT := .mk [.mk (.atom ⟨34, 37⟩)] ⟨34, 37⟩
/-- Run-2 func type, single-line. -/
def ft2 : FuncTy := .mk none (some fl2params) (some fl2results) ⟨22, 37⟩
/-- Run-2 body `{ return a }`. -/
def body2 : Block := .mk [.atom ⟨40, 48⟩] ⟨38, 50⟩
/-- Run-2 func literal, fully single-line. -/
def funcLit2 : Expr := .funcLit ft2 body2 ⟨22, 50⟩
/-- Run-2 `var f = ...`, single-line. -/
def declC2a : Decl := .gen false [.val [.atom ⟨18, 19⟩, funcLit2] ⟨18, 50⟩] ⟨14, 50⟩
/-- Run-2 `var (\n\tx = 1\n)` — still grouped, untouched by run 1. -/
def declC2b : Decl := .gen true [.val [.atom ⟨59, 60⟩, .atom ⟨63, 64⟩] ⟨59, 64⟩] ⟨52, 66⟩
/-- The run-2 file. -/
def fileC1run2 : List Decl := [declC2a, declC2b]
/-- Run-2 line table. -/
def stC1run2 : St := ⟨[0, 13, 14, 51, 52, 58, 65], []⟩

/-! #### Claim C2: printer canonicalisation on non-canonical input

Input `package main\n\nvar x  = 1\n` (two spaces after `x`): it parses,
nothing in it is multi-line, so the engine commits no condensation at all;
yet `format.Node` prints the canonical `var x = 1`. -/

/-- The C2 source text (extra space before `=`). -/
def srcC2 : String := "package main\n\nvar x  = 1\n"
/-- Canonical output of `format.Node` for that file. -/
def outC2 : String := "package main\n\nvar x = 1\n"
/-- The single declaration `var x  = 1` at offsets 14–24 (`x` 18, `1` 23). -/
def declsC2 : List Decl := [.gen false [.val [.atom ⟨18, 19⟩, .atom ⟨23, 24⟩] ⟨18, 24⟩] ⟨14, 24⟩]
/-- C2 line table. -/
def stC2 : St := ⟨[0, 13, 14], []⟩
/-- C2 environment (the renderer is never consulted: nothing is multi-line). -/
def envC2 : Env := { config := DefaultConfig, comments := [], render := fun _ _ => some [⟨1, 0⟩] }
/-- Modelled from the spec: the external printer (`format.Node` on the whole
file), which emits canonical gofmt text.  For this concrete single-line
file its output is `var x = 1` — one space — regardless of the input's
extra space, because the printer re-renders tokens with standard
spacing. -/
def printerC2 : List Decl → St → Option String := fun _ _ => some outC2

/-! #### Claim C3: the accepted 6-byte line under `maxLen = 5` -/

/-- A multi-line node spanning offsets 0–9 (line table `[0, 4]`). -/
def nodeC3 : GoNode := .expr (.atom ⟨0, 9⟩)
/-- Its single-line rendering is one line of 6 bytes, no tabs
(e.g. `f(1,2)`). -/
def renderC3 : RenderFn := fun n _ =>
  match n with
  | .expr (.atom (Span.mk 0 9)) => some [⟨6, 0⟩]
  | _ => some [⟨1, 0⟩]
/-- Configuration with `MaxLen = 5`. -/
def envC3 : Env := { config := ⟨5, 4, 3, All⟩, comments := [], render := renderC3 }
/-- C3 line table: the node starts on line 1 and ends on line 2. -/
def stC3 : St := ⟨[0, 4], []⟩

/-! #### Claim C4: a comment-bearing call condensed to one line by its child

```
package main\n          line 1, offset 0
\n                       line 2, offset 13
func h() {\n             line 3, offset 14
\tf(a, /* c */ g(\n      line 4, offset 25  (comment at 31–38)
\t\tx))\n                line 5, offset 42
}\n                      line 6, offset 48
```
-/

/-- The inner call `g(\n\t\tx)` (comment-free, condensable). -/
def gCall : Expr := .call (.atom ⟨39, 40⟩) [.atom ⟨44, 45⟩] ⟨39, 46⟩
/-- The outer call `f(a, /* c */ g(...))` whose span contains the comment. -/
def fCall : Expr := .call (.atom ⟨26, 27⟩) [.atom ⟨28, 29⟩, gCall] ⟨26, 47⟩
/-- C4 line table. -/
def stC4 : St := ⟨[0, 13, 14, 25, 42, 48], []⟩
/-- Renderer: `g(x)` is 4 bytes. -/
def renderC4 : RenderFn := fun n _ =>
  match n with
  | .expr (.call _ _ (Span.mk 39 46)) => some [⟨4, 0⟩]
  | _ => some [⟨1, 0⟩]
/-- Default configuration with the comment `/* c */` spanning 31–38. -/
def envC4 : Env := { config := DefaultConfig, comments := [⟨31, 38⟩], render := renderC4 }

/-! #### Claim C5: `Calls` disabled, slice-literal argument still condensed

A multi-line call whose only argument is a multi-line slice literal
(line table `[0, 10, 20, 30, 40]`; call at 0–41, literal at 5–35). -/

/-- The slice literal `[]string{\n "a",\n}` (no key-values, category Slices). -/
def sliceLit : Expr := .composite (some (.atom ⟨5, 13⟩)) [.basicLit .str "\"a\"" ⟨21, 24⟩] ⟨5, 35⟩
/-- The enclosing multi-line call. -/
def callC5 : Expr := .call (.atom ⟨0, 1⟩) [sliceLit] ⟨0, 41⟩
/-- C5 line table. -/
def stC5 : St := ⟨[0, 10, 20, 30, 40], []⟩
/-- Renderer: the condensed literal `[]string{"a"}` is 13 bytes. -/
def renderC5 : RenderFn := fun n _ =>
  match n with
  | .expr (.composite _ _ (Span.mk 5 35)) => some [⟨13, 0⟩]
  | _ => some [⟨1, 0⟩]
/-- Everything enabled except `Calls`. -/
def envC5 : Env :=
  { config := { DefaultConfig with enable := All - Calls }, comments := [], render := renderC5 }

/-! #### Claim C6: `MaxKeyValue = 0` rejects a one-element map literal

`map[string]int{\n\t"a": 1,\n}` — line table `[0, 16, 25]`, literal at
1–27, one key-value element on line 2. -/

/-- The map type `map[string]int`. -/
def mapLit6typ : Expr := .mapType (.atom ⟨4, 10⟩) (.atom ⟨11, 14⟩) ⟨1, 14⟩
/-- The single key-value element `"a": 1`. -/
def mapLit6elts : List Expr := [.keyValue (.atom ⟨17, 20⟩) (.atom ⟨22, 23⟩) ⟨17, 23⟩]
/-- C6 line table. -/
def stC6 : St := ⟨[0, 16, 25], []⟩
/-- Renderer: the condensed literal `map[string]int{"a": 1}` is 22 bytes. -/
def renderC6 : RenderFn := fun n _ =>
  match n with
  | .expr (.composite _ _ (Span.mk 1 27)) => some [⟨22, 0⟩]
  | _ => some [⟨1, 0⟩]
/-- Configuration with `MaxKeyValue` explicitly 0, other fields default. -/
def envC6zero : Env :=
  { config := { DefaultConfig with maxKeyValue := 0 }, comments := [], render := renderC6 }
/-- The documented fallback configuration (`MaxKeyValue = 3`). -/
def envC6default : Env := { config := DefaultConfig, comments := [], render := renderC6 }

/-! #### Claim C7: a two-element struct literal under `MaxKeyValue = 0`

`T{\n\ta: 1,\n\tb: 2,\n}` — line table `[0, 10, 20, 30]`, literal at 1–35,
two key-value elements. -/

/-- The two key-value elements. -/
def structLit7elts : List Expr :=
  [.keyValue (.atom ⟨11, 12⟩) (.atom ⟨14, 15⟩) ⟨11, 15⟩,
   .keyValue (.atom ⟨21, 22⟩) (.atom ⟨24, 25⟩) ⟨21, 25⟩]
/-- C7 line table. -/
def stC7 : St := ⟨[0, 10, 20, 30], []⟩
/-- Renderer: the condensed literal `T{a: 1, b: 2}` is 13 bytes. -/
def renderC7 : RenderFn := fun n _ =>
  match n with
  | .expr (.composite _ _ (Span.mk 1 35)) => some [⟨13, 0⟩]
  | _ => some [⟨1, 0⟩]
/-- Configuration with `MaxKeyValue` explicitly 0. -/
def envC7zero : Env :=
  { config := { DefaultConfig with maxKeyValue := 0 }, comments := [], render := renderC7 }
/-- Same with the documented default ceiling 3. -/
def envC7three : Env := { config := DefaultConfig, comments := [], render := renderC7 }


/-! #### Claim C10: a raw string literal with a newline

`f(` + "`a\nb`" + `)` — line table `[0, 10, 20, 30]`: the literal spans
2–24 and its interior newline is the line start at offset 10. -/

/-- The raw (backquote-delimited) string literal value, containing a
newline. -/
def rawC10 : String := "`a\nb`"
/-- C10 line table. -/
def stC10 : St := ⟨[0, 10, 20, 30], []⟩
/-- C10 environment: defaults (everything enabled), no comments. -/
def envC10 : Env := { config := DefaultConfig, comments := [], render := fun _ _ => some [⟨1, 0⟩] }

/-! ## Theorems

First the line-table primitives, then the frame lemmas, then the claim
theorems. -/

theorem lineOf_mono (l : List Nat) {s t : Nat} (h : s ≤ t) : lineOf l s ≤ lineOf l t := by
  unfold lineOf
  induction l with
  | nil => simp
  | cons x xs ih =>
    simp only [List.countP_cons]
    by_cases hx : x ≤ s
    · have : x ≤ t := le_trans hx h
      simp [hx, this]
      omega
    · by_cases hx2 : x ≤ t <;> simp [hx, hx2] <;> omega

theorem mem_drop_lineOf {l : List Nat} (hs : SortedL l) {s o : Nat}
    (ho : o ∈ l.drop (lineOf l s)) : s < o := by
  induction l with
  | nil => simp at ho
  | cons x xs ih =>
    rcases List.pairwise_cons.1 hs with ⟨hx, hxs⟩
    by_cases hle : x ≤ s
    · have hcount : lineOf (x :: xs) s = lineOf xs s + 1 := by
        unfold lineOf; simp [List.countP_cons, hle]
      rw [hcount] at ho
      exact ih hxs (by simpa using ho)
    · push_neg at hle
      have hzero : lineOf (x :: xs) s = 0 := by
        unfold lineOf
        simp only [List.countP_cons]
        have : List.countP (fun o => decide (o ≤ s)) xs = 0 := by
          apply List.countP_eq_zero.2
          intro a ha
          have := hx a ha
          simp; omega
        simp [this]
        omega
      rw [hzero] at ho
      simp at ho
      rcases ho with h | h
      · omega
      · have := hx o h; omega

theorem mem_take_lineOf {l : List Nat} (hs : SortedL l) {t o : Nat}
    (ho : o ∈ l.take (lineOf l t)) : o ≤ t := by
  induction l with
  | nil => simp at ho
  | cons x xs ih =>
    rcases List.pairwise_cons.1 hs with ⟨hx, hxs⟩
    by_cases hle : x ≤ t
    · have hcount : lineOf (x :: xs) t = lineOf xs t + 1 := by
        unfold lineOf; simp [List.countP_cons, hle]
      rw [hcount] at ho
      simp only [List.take_succ_cons, List.mem_cons] at ho
      rcases ho with h | h
      · omega
      · exact ih hxs h
    · push_neg at hle
      have hzero : lineOf (x :: xs) t = 0 := by
        unfold lineOf
        simp only [List.countP_cons]
        have : List.countP (fun o => decide (o ≤ t)) xs = 0 := by
          apply List.countP_eq_zero.2
          intro a ha
          have := hx a ha
          simp; omega
        simp [this]
        omega
      rw [hzero] at ho
      simp at ho

theorem removeLinesL_sublist (l : List Nat) (a b : Nat) : (removeLinesL l a b).Sublist l := by
  unfold removeLinesL
  split
  · rename_i hab
    have h1 : (l.drop b).Sublist (l.drop a) := by
      have heq : l.drop b = (l.drop a).drop (b - a) := by
        rw [List.drop_drop]
        congr 1
        omega
      rw [heq]
      exact List.drop_sublist _ _
    have h2 : (l.take a ++ l.drop b).Sublist (l.take a ++ l.drop a) :=
      List.Sublist.append_left h1 _
    rw [List.take_append_drop] at h2
    exact h2
  · exact List.Sublist.refl l

theorem removeLinesL_sorted {l : List Nat} (hs : SortedL l) (a b : Nat) :
    SortedL (removeLinesL l a b) :=
  List.Pairwise.sublist (removeLinesL_sublist l a b) hs

theorem removeLinesL_frame {l : List Nat} (hs : SortedL l) {s t : Nat} (o : Nat)
    (ho : o ≤ s ∨ t < o) :
    (o ∈ removeLinesL l (lineOf l s) (lineOf l t) ↔ o ∈ l) := by
  constructor
  · intro h
    exact (removeLinesL_sublist l _ _).subset h
  · intro hl
    unfold removeLinesL
    split
    · rename_i hab
      rcases ho with hle | hgt
      · have hsplit : o ∈ l.take (lineOf l s) ++ l.drop (lineOf l s) := by
          rw [List.take_append_drop]; exact hl
        rcases List.mem_append.1 hsplit with h | h
        · exact List.mem_append.2 (Or.inl h)
        · exact absurd (mem_drop_lineOf hs h) (by omega)
      · have hsplit : o ∈ l.take (lineOf l t) ++ l.drop (lineOf l t) := by
          rw [List.take_append_drop]; exact hl
        rcases List.mem_append.1 hsplit with h | h
        · exact absurd (mem_take_lineOf hs h) (by omega)
        · exact List.mem_append.2 (Or.inr h)
    · exact hl

theorem sorted_dropWhile_ge {l : List Nat} (hs : SortedL l) {off p : Nat}
    (hp : p ∈ l.dropWhile (fun o => decide (o < off))) : off ≤ p := by
  induction l with
  | nil => simp at hp
  | cons x xs ih =>
    rcases List.pairwise_cons.1 hs with ⟨hx, hxs⟩
    by_cases hlt : x < off
    · rw [List.dropWhile_cons_of_pos (by simpa using hlt)] at hp
      exact ih hxs hp
    · rw [List.dropWhile_cons_of_neg (by simpa using hlt)] at hp
      push_neg at hlt
      rcases List.mem_cons.1 hp with h | h
      · omega
      · have := hx p h; omega

theorem addNewline_mem (l : List Nat) (off p : Nat) :
    p ∈ addNewline l off ↔ (p ∈ l ∨ p = off) := by
  unfold addNewline
  split
  · rename_i hmem
    constructor
    · intro h; exact Or.inl h
    · rintro (h | rfl)
      · exact h
      · exact hmem
  · rename_i hmem
    rw [List.mem_append, List.mem_cons]
    constructor
    · rintro (h | h | h)
      · exact Or.inl ((List.takeWhile_sublist _).subset h)
      · exact Or.inr h
      · exact Or.inl ((List.dropWhile_sublist _).subset h)
    · rintro (h | rfl)
      · conv at h => rw [← List.takeWhile_append_dropWhile (p := fun o => decide (o < off)) (l := l)]
        rcases List.mem_append.1 h with h | h
        · exact Or.inl h
        · exact Or.inr (Or.inr h)
      · exact Or.inr (Or.inl rfl)

theorem addNewline_sorted {l : List Nat} (hs : SortedL l) (off : Nat) :
    SortedL (addNewline l off) := by
  unfold addNewline
  split
  · exact hs
  · rename_i hmem
    apply List.pairwise_append.2
    refine ⟨List.Pairwise.sublist (List.takeWhile_sublist _) hs, ?_, ?_⟩
    · apply List.pairwise_cons.2
      refine ⟨?_, List.Pairwise.sublist (List.dropWhile_sublist _) hs⟩
      intro p hp
      have h1 : off ≤ p := sorted_dropWhile_ge hs hp
      have h2 : p ∈ l := (List.dropWhile_sublist _).subset hp
      have : p ≠ off := by rintro rfl; exact hmem h2
      omega
    · intro a ha b hb
      have ha2 : a < off := by
        have := List.mem_takeWhile_imp ha
        simpa using this
      rcases List.mem_cons.1 hb with rfl | hb2
      · exact ha2
      · have : off ≤ b := sorted_dropWhile_ge hs hb2
        omega

theorem addNewlineTimes_mem (l : List Nat) (off n p : Nat) (hne : p ≠ off) :
    p ∈ addNewlineTimes l off n ↔ p ∈ l := by
  induction n generalizing l with
  | zero => rfl
  | succ n ih =>
    unfold addNewlineTimes
    rw [ih]
    rw [addNewline_mem]
    simp [hne]

theorem addNewlineTimes_sorted {l : List Nat} (hs : SortedL l) (off n : Nat) :
    SortedL (addNewlineTimes l off n) := by
  induction n generalizing l with
  | zero => exact hs
  | succ n ih =>
    unfold addNewlineTimes
    exact ih (addNewline_sorted hs off)

theorem frameOK_refl {sp : Span} {st : St} (hs : SortedL st.lines) : FrameOK sp st st :=
  ⟨hs, fun _ _ => Iff.rfl⟩

theorem frameOK_trans {sp : Span} {st st1 st2 : St} (h1 : FrameOK sp st st1)
    (h2 : FrameOK sp st1 st2) : FrameOK sp st st2 :=
  ⟨h2.1, fun o ho => (h2.2 o ho).trans (h1.2 o ho)⟩

theorem frameOK_mono {inner outer : Span} {st st' : St} (hsub : Span.subB inner outer = true)
    (h : FrameOK inner st st') : FrameOK outer st st' := by
  refine ⟨h.1, fun o ho => h.2 o ?_⟩
  unfold Span.subB at hsub
  simp only [Bool.and_eq_true, decide_eq_true_eq] at hsub
  omega

theorem condenseNode_frame (env : Env) (node : GoNode) (st : St) (hs : SortedL st.lines) :
    FrameOK node.span st (condenseNode env node st).2 := by
  unfold condenseNode
  split
  · exact frameOK_refl hs
  · by_cases hc : canCondense env node
      (removeLinesL st.lines (lineOf st.lines node.span.s) (lineOf st.lines node.span.t))
    · simp only [hc]
      simp
      exact ⟨removeLinesL_sorted hs _ _, fun o ho => removeLinesL_frame hs o ho⟩
    · simp only [hc]
      simp
      exact frameOK_refl hs

theorem condenseBasicLit_frame (env : Env) (kind : LitKind) (value : String) (sp : Span)
    (st : St) (hs : SortedL st.lines) :
    FrameOK sp st (condenseBasicLit env kind value sp st).2 := by
  unfold condenseBasicLit
  split
  · exact condenseNode_frame env _ st hs
  · split
    · exact frameOK_refl hs
    · exact condenseNode_frame env _ st hs


theorem frameOK_restore {sp : Span} {st : St} (a : List AddEntry) (hs : SortedL st.lines) :
    FrameOK sp st { lines := st.lines, addLines := a } := ⟨hs, fun _ _ => Iff.rfl⟩

theorem pickField_wf {ft : FuncTy} (hwf : funcTyWfB ft = true) (p : Pick) :
    optFieldListInB (pickField ft p) ft.span = true := by
  cases ft with
  | mk tp ps rs sp =>
    simp only [funcTyWfB, Bool.and_eq_true] at hwf
    cases p <;>
      simp [pickField, FuncTy.tparams, FuncTy.params, FuncTy.results, FuncTy.span] <;>
      [exact hwf.1.1.2; exact hwf.1.2; exact hwf.2]

mutual
/-- Frame of `condenseExpr`: all line-table changes stay inside the
expression's span, and the table stays sorted. -/
theorem condenseExpr_frame (env : Env) (x : Expr) (st : St)
    (hwf : exprWfB x = true) (hs : SortedL st.lines) :
    FrameOK x.span st (condenseExpr env x st).2 :=
  match x, hwf with
  | .basicLit kind value sp, hwf => by
    by_cases hcom : hasComments env sp = true
    · have heq : condenseExpr env (.basicLit kind value sp) st = (false, st) := by
        simp [condenseExpr, Expr.span, hcom]
      rw [heq]; exact frameOK_refl hs
    · by_cases hsl : isSingleLine st.lines sp = true
      · have heq : condenseExpr env (.basicLit kind value sp) st = (true, st) := by
          simp [condenseExpr, Expr.span, hcom, hsl]
        rw [heq]; exact frameOK_refl hs
      · have heq : condenseExpr env (.basicLit kind value sp) st
            = condenseBasicLit env kind value sp st := by
          simp [condenseExpr, Expr.span, hcom, hsl]
        rw [heq]
        exact condenseBasicLit_frame env kind value sp st hs
  | .binary a b sp, hwf => by
    by_cases hcom : hasComments env sp = true
    · have heq : condenseExpr env (.binary a b sp) st = (false, st) := by
        simp [condenseExpr, Expr.span, hcom]
      rw [heq]; exact frameOK_refl hs
    · by_cases hsl : isSingleLine st.lines sp = true
      · have heq : condenseExpr env (.binary a b sp) st = (true, st) := by
          simp [condenseExpr, Expr.span, hcom, hsl]
        rw [heq]; exact frameOK_refl hs
      · simp only [exprWfB, exprInB, Bool.and_eq_true] at hwf
        have heq : condenseExpr env (.binary a b sp) st
            = (let r1 := condenseExpr env a st
               let r2 := condenseExpr env b r1.2
               (allOK r1.1 r2.1, r2.2)) := by
          simp [condenseExpr, Expr.span, hcom, hsl]
        rw [heq]
        have f1 := condenseExpr_frame env a st hwf.1.2.2 hs
        have f2 := condenseExpr_frame env b (condenseExpr env a st).2 hwf.2.2 f1.1
        exact frameOK_trans (frameOK_mono hwf.1.2.1 f1) (frameOK_mono hwf.2.1 f2)
  | .call fn args sp, hwf => by
    by_cases hcom : hasComments env sp = true
    · have heq : condenseExpr env (.call fn args sp) st = (false, st) := by
        simp [condenseExpr, Expr.span, hcom]
      rw [heq]; exact frameOK_refl hs
    · by_cases hsl : isSingleLine st.lines sp = true
      · have heq : condenseExpr env (.call fn args sp) st = (true, st) := by
          simp [condenseExpr, Expr.span, hcom, hsl]
        rw [heq]; exact frameOK_refl hs
      · have heq : condenseExpr env (.call fn args sp) st = condenseCallExpr env fn args sp st := by
          simp [condenseExpr, Expr.span, hcom, hsl]
        rw [heq]
        exact condenseCallExpr_frame env fn args sp st hwf hs
  | .composite typ elts sp, hwf => by
    by_cases hcom : hasComments env sp = true
    · have heq : condenseExpr env (.composite typ elts sp) st = (false, st) := by
        simp [condenseExpr, Expr.span, hcom]
      rw [heq]; exact frameOK_refl hs
    · by_cases hsl : isSingleLine st.lines sp = true
      · have heq : condenseExpr env (.composite typ elts sp) st = (true, st) := by
          simp [condenseExpr, Expr.span, hcom, hsl]
        rw [heq]; exact frameOK_refl hs
      · have heq : condenseExpr env (.composite typ elts sp) st
            = condenseCompositeLit env typ elts sp st := by
          simp [condenseExpr, Expr.span, hcom, hsl]
        rw [heq]
        exact condenseCompositeLit_frame env typ elts sp st hwf hs
  | .funcLit ft body sp, hwf => by
    by_cases hcom : hasComments env sp = true
    · have heq : condenseExpr env (.funcLit ft body sp) st = (false, st) := by
        simp [condenseExpr, Expr.span, hcom]
      rw [heq]; exact frameOK_refl hs
    · by_cases hsl : isSingleLine st.lines sp = true
      · have heq : condenseExpr env (.funcLit ft body sp) st = (true, st) := by
          simp [condenseExpr, Expr.span, hcom, hsl]
        rw [heq]; exact frameOK_refl hs
      · have heq : condenseExpr env (.funcLit ft body sp) st
            = condenseFuncLit env ft body sp st := by
          simp [condenseExpr, Expr.span, hcom, hsl]
        rw [heq]
        exact condenseFuncLit_frame env ft body sp st hwf hs
  | .funcTypeE ft, hwf => by
    by_cases hcom : hasComments env (Expr.funcTypeE ft).span = true
    · have heq : condenseExpr env (.funcTypeE ft) st = (false, st) := by
        simp [condenseExpr, hcom]
      rw [heq]; exact frameOK_refl hs
    · by_cases hsl : isSingleLine st.lines (Expr.funcTypeE ft).span = true
      · have heq : condenseExpr env (.funcTypeE ft) st = (true, st) := by
          simp [condenseExpr, hcom, hsl]
        rw [heq]; exact frameOK_refl hs
      · have heq : condenseExpr env (.funcTypeE ft) st = (false, st) := by
          simp [condenseExpr, hcom, hsl]
        rw [heq]; exact frameOK_refl hs
  | .interfaceType sp, hwf => by
    by_cases hcom : hasComments env sp = true
    · have heq : condenseExpr env (.interfaceType sp) st = (false, st) := by
        simp [condenseExpr, Expr.span, hcom]
      rw [heq]; exact frameOK_refl hs
    · by_cases hsl : isSingleLine st.lines sp = true
      · have heq : condenseExpr env (.interfaceType sp) st = (true, st) := by
          simp [condenseExpr, Expr.span, hcom, hsl]
        rw [heq]; exact frameOK_refl hs
      · have heq : condenseExpr env (.interfaceType sp) st = (false, st) := by
          simp [condenseExpr, Expr.span, hcom, hsl]
        rw [heq]; exact frameOK_refl hs
  | .keyValue k v sp, hwf => by
    by_cases hcom : hasComments env sp = true
    · have heq : condenseExpr env (.keyValue k v sp) st = (false, st) := by
        simp [condenseExpr, Expr.span, hcom]
      rw [heq]; exact frameOK_refl hs
    · by_cases hsl : isSingleLine st.lines sp = true
      · have heq : condenseExpr env (.keyValue k v sp) st = (true, st) := by
          simp [condenseExpr, Expr.span, hcom, hsl]
        rw [heq]; exact frameOK_refl hs
      · simp only [exprWfB, exprInB, Bool.and_eq_true] at hwf
        have heq : condenseExpr env (.keyValue k v sp) st
            = (let r1 := condenseExpr env k st
               let r2 := condenseExpr env v r1.2
               (allOK r1.1 r2.1, r2.2)) := by
          simp [condenseExpr, Expr.span, hcom, hsl]
        rw [heq]
        have f1 := condenseExpr_frame env k st hwf.1.2.2 hs
        have f2 := condenseExpr_frame env v (condenseExpr env k st).2 hwf.2.2 f1.1
        exact frameOK_trans (frameOK_mono hwf.1.2.1 f1) (frameOK_mono hwf.2.1 f2)
  | .mapType k v sp, hwf => by
    by_cases hcom : hasComments env sp = true
    · have heq : condenseExpr env (.mapType k v sp) st = (false, st) := by
        simp [condenseExpr, Expr.span, hcom]
      rw [heq]; exact frameOK_refl hs
    · by_cases hsl : isSingleLine st.lines sp = true
      · have heq : condenseExpr env (.mapType k v sp) st = (true, st) := by
          simp [condenseExpr, Expr.span, hcom, hsl]
        rw [heq]; exact frameOK_refl hs
      · simp only [exprWfB, exprInB, Bool.and_eq_true] at hwf
        have heq : condenseExpr env (.mapType k v sp) st
            = (let r1 := condenseExpr env k st
               let r2 := condenseExpr env v r1.2
               (allOK r1.1 r2.1, r2.2)) := by
          simp [condenseExpr, Expr.span, hcom, hsl]
        rw [heq]
        have f1 := condenseExpr_frame env k st hwf.1.2.2 hs
        have f2 := condenseExpr_frame env v (condenseExpr env k st).2 hwf.2.2 f1.1
        exact frameOK_trans (frameOK_mono hwf.1.2.1 f1) (frameOK_mono hwf.2.1 f2)
  | .structType numFields sp, hwf => by
    by_cases hcom : hasComments env sp = true
    · have heq : condenseExpr env (.structType numFields sp) st = (false, st) := by
        simp [condenseExpr, Expr.span, hcom]
      rw [heq]; exact frameOK_refl hs
    · by_cases hsl : isSingleLine st.lines sp = true
      · have heq : condenseExpr env (.structType numFields sp) st = (true, st) := by
          simp [condenseExpr, Expr.span, hcom, hsl]
        rw [heq]; exact frameOK_refl hs
      · by_cases hgate : (!featHas env.config.enable Structs || decide (numFields > 0)) = true
        · have heq : condenseExpr env (.structType numFields sp) st = (false, st) := by
            simp [condenseExpr, Expr.span, hcom, hsl, hgate]
          rw [heq]; exact frameOK_refl hs
        · have hb : (!featHas env.config.enable Structs || decide (numFields > 0)) = false :=
            Bool.eq_false_iff.mpr hgate
          simp only [Bool.or_eq_false_iff, Bool.not_eq_true'] at hb
          have hzero : numFields = 0 := by
            have h2 : ¬(numFields > 0) := by simpa using hb.2
            omega
          have heq : condenseExpr env (.structType numFields sp) st
              = condenseNode env (.expr (.structType numFields sp)) st := by
            simp [condenseExpr, Expr.span, hcom, hsl, hb.1, hzero]
          rw [heq]
          have := condenseNode_frame env (.expr (.structType numFields sp)) st hs
          simpa [GoNode.span, Expr.span] using this
  | .bad sp, hwf => by
    by_cases hcom : hasComments env sp = true
    · have heq : condenseExpr env (.bad sp) st = (false, st) := by
        simp [condenseExpr, Expr.span, hcom]
      rw [heq]; exact frameOK_refl hs
    · by_cases hsl : isSingleLine st.lines sp = true
      · have heq : condenseExpr env (.bad sp) st = (true, st) := by
          simp [condenseExpr, Expr.span, hcom, hsl]
        rw [heq]; exact frameOK_refl hs
      · have heq : condenseExpr env (.bad sp) st = (false, st) := by
          simp [condenseExpr, Expr.span, hcom, hsl]
        rw [heq]; exact frameOK_refl hs
  | .atom sp, hwf => by
    by_cases hcom : hasComments env sp = true
    · have heq : condenseExpr env (.atom sp) st = (false, st) := by
        simp [condenseExpr, Expr.span, hcom]
      rw [heq]; exact frameOK_refl hs
    · by_cases hsl : isSingleLine st.lines sp = true
      · have heq : condenseExpr env (.atom sp) st = (true, st) := by
          simp [condenseExpr, Expr.span, hcom, hsl]
        rw [heq]; exact frameOK_refl hs
      · have heq : condenseExpr env (.atom sp) st
            = condenseNode env (.expr (.atom sp)) st := by
          simp [condenseExpr, Expr.span, hcom, hsl]
        rw [heq]
        have := condenseNode_frame env (.expr (.atom sp)) st hs
        simpa [GoNode.span, Expr.span] using this
termination_by (sizeOf x, 1)

/-- Frame of the element loop relative to a span covering all elements. -/
theorem condenseExprList_frame (env : Env) (xs : List Expr) (st : St) (sp : Span)
    (hwf : exprsInB xs sp = true) (hs : SortedL st.lines) :
    FrameOK sp st (condenseExprList env xs st).2 :=
  match xs, hwf with
  | [], hwf => by
    have heq : condenseExprList env [] st = (true, st) := by simp [condenseExprList]
    rw [heq]; exact frameOK_refl hs
  | x :: rest, hwf => by
    simp only [exprsInB, exprInB, Bool.and_eq_true] at hwf
    have heq : condenseExprList env (x :: rest) st
        = (let r1 := condenseExpr env x st
           let r2 := condenseExprList env rest r1.2
           (r1.1 && r2.1, r2.2)) := by
      simp [condenseExprList]
    rw [heq]
    have f1 := condenseExpr_frame env x st hwf.1.2 hs
    have f2 := condenseExprList_frame env rest (condenseExpr env x st).2 sp hwf.2 f1.1
    exact frameOK_trans (frameOK_mono hwf.1.1 f1) f2
termination_by (sizeOf xs, 1)

/-- Frame of `condenseCallExpr`. -/
theorem condenseCallExpr_frame (env : Env) (fn : Expr) (args : List Expr) (sp : Span) (st : St)
    (hwf : exprWfB (.call fn args sp) = true) (hs : SortedL st.lines) :
    FrameOK sp st (condenseCallExpr env fn args sp st).2 := by
  simp only [exprWfB, exprInB, Bool.and_eq_true] at hwf
  by_cases hgate : (!featHas env.config.enable Calls || hasComments env sp) = true
  · have heq : condenseCallExpr env fn args sp st = (false, st) := by
      simp [condenseCallExpr, hgate]
    rw [heq]; exact frameOK_refl hs
  · by_cases hsl : isSingleLine st.lines sp = true
    · have heq : condenseCallExpr env fn args sp st = (true, st) := by
        simp [condenseCallExpr, hgate, hsl]
      rw [heq]; exact frameOK_refl hs
    · have heq : condenseCallExpr env fn args sp st
          = (let rFun := condenseExpr env fn st
             let rArgs := condenseExprList env args rFun.2
             if !rArgs.1 then (false, rArgs.2)
             else condenseNode env (.expr (.call fn args sp)) rArgs.2) := by
        simp [condenseCallExpr, hgate, hsl]
      rw [heq]
      have f1 := condenseExpr_frame env fn st hwf.1.2.2 hs
      have f1m := frameOK_mono hwf.1.2.1 f1
      have f2 := condenseExprList_frame env args (condenseExpr env fn st).2 sp hwf.2 f1.1
      have f12 := frameOK_trans f1m f2
      by_cases hok : (condenseExprList env args (condenseExpr env fn st).2).1 = true
      · simp only [hok, Bool.not_true]
        simp only [Bool.false_eq_true, if_false]
        have f3 := condenseNode_frame env (.expr (.call fn args sp))
          (condenseExprList env args (condenseExpr env fn st).2).2 f12.1
        simp only [GoNode.span, Expr.span] at f3
        exact frameOK_trans f12 f3
      · simp only [Bool.not_eq_true] at hok
        simp only [hok]
        simpa using f12
termination_by (sizeOf fn + sizeOf args, 0)
decreasing_by
  · apply Prod.Lex.left
    cases args <;> simp <;> omega
  · apply Prod.Lex.left
    cases fn <;> simp <;> omega

/-- Frame of `condenseCompositeLit`. -/
theorem condenseCompositeLit_frame (env : Env) (typ : Option Expr) (elts : List Expr) (sp : Span)
    (st : St) (hwf : exprWfB (.composite typ elts sp) = true) (hs : SortedL st.lines) :
    FrameOK sp st (condenseCompositeLit env typ elts sp st).2 := by
  have hwfE : exprsInB elts sp = true := by
    cases typ with
    | none => simp only [exprWfB, Bool.and_eq_true] at hwf; exact hwf.2
    | some ty => simp only [exprWfB, Bool.and_eq_true] at hwf; exact hwf.2
  by_cases hgate : (hasComments env sp || elts.any isComplexExpr) = true
  · have heq : condenseCompositeLit env typ elts sp st = (false, st) := by
      simp [condenseCompositeLit, hgate]
    rw [heq]; exact frameOK_refl hs
  · by_cases hsl : isSingleLine st.lines sp = true
    · have heq : condenseCompositeLit env typ elts sp st = (true, st) := by
        simp [condenseCompositeLit, hgate, hsl]
      rw [heq]; exact frameOK_refl hs
    · by_cases hfeat : featHas env.config.enable (compositeFeature typ elts) = true
      · by_cases hmax : ((compositeFeature typ elts == Structs
            || compositeFeature typ elts == Maps)
            && decide (elts.length > env.config.maxKeyValue)) = true
        · have heq : condenseCompositeLit env typ elts sp st = (false, st) := by
            simp [condenseCompositeLit, hgate, hsl, hfeat, hmax]
          rw [heq]; exact frameOK_refl hs
        · have heq : condenseCompositeLit env typ elts sp st
              = (let rElts := condenseExprList env elts st
                 if !rElts.1 then (false, rElts.2)
                 else condenseNode env (.expr (.composite typ elts sp)) rElts.2) := by
            simp [condenseCompositeLit, hgate, hsl, hfeat, hmax]
          rw [heq]
          have f1 := condenseExprList_frame env elts st sp hwfE hs
          by_cases hok : (condenseExprList env elts st).1 = true
          · simp only [hok, Bool.not_true]
            simp only [Bool.false_eq_true, if_false]
            have f2 := condenseNode_frame env (.expr (.composite typ elts sp))
              (condenseExprList env elts st).2 f1.1
            simp only [GoNode.span, Expr.span] at f2
            exact frameOK_trans f1 f2
          · simp only [Bool.not_eq_true] at hok
            simp only [hok]
            simpa using f1
      · have heq : condenseCompositeLit env typ elts sp st = (false, st) := by
          simp [condenseCompositeLit, hgate, hsl, hfeat]
        rw [heq]; exact frameOK_refl hs
termination_by (sizeOf typ + sizeOf elts, 0)
decreasing_by
  apply Prod.Lex.left
  cases typ <;> simp <;> omega

/-- Frame of `condenseFuncLit`. -/
theorem condenseFuncLit_frame (env : Env) (ft : FuncTy) (body : Block) (sp : Span) (st : St)
    (hwf : exprWfB (.funcLit ft body sp) = true) (hs : SortedL st.lines) :
    FrameOK sp st (condenseFuncLit env ft body sp st).2 := by
  simp only [exprWfB, Bool.and_eq_true] at hwf
  by_cases hgate : (!featHas env.config.enable Literals) = true
  · have heq : condenseFuncLit env ft body sp st = (false, st) := by
      simp [condenseFuncLit, hgate]
    rw [heq]; exact frameOK_refl hs
  · by_cases hsl : isSingleLine st.lines sp = true
    · have heq : condenseFuncLit env ft body sp st = (true, st) := by
        simp [condenseFuncLit, hgate, hsl]
      rw [heq]; exact frameOK_refl hs
    · have heq : condenseFuncLit env ft body sp st
          = (let st1 := insertAddLines st body.span (lineOf st.lines body.span.s)
               (lineOf st.lines body.span.t)
             let r := condenseFuncType env ft Literals st1
             (r.1 && decide (body.stmts.length ≤ 1), r.2)) := by
        simp [condenseFuncLit, hgate, hsl]
      rw [heq]
      have h0 : FrameOK sp st (insertAddLines st body.span (lineOf st.lines body.span.s)
          (lineOf st.lines body.span.t)) := ⟨hs, fun _ _ => Iff.rfl⟩
      have f1 := condenseFuncType_frame env ft Literals
        (insertAddLines st body.span (lineOf st.lines body.span.s)
          (lineOf st.lines body.span.t)) hwf.1.1.2 h0.1
      exact frameOK_trans h0 (frameOK_mono hwf.1.1.1.2 f1)
termination_by (sizeOf ft + sizeOf body, 0)
decreasing_by
  apply Prod.Lex.left
  cases body <;> simp <;> omega

/-- Frame of `condenseFuncType`. -/
theorem condenseFuncType_frame (env : Env) (ft : FuncTy) (feature : Feature) (st : St)
    (hwf : funcTyWfB ft = true) (hs : SortedL st.lines) :
    FrameOK ft.span st (condenseFuncType env ft feature st).2 := by
  by_cases hgate : (!featHas env.config.enable feature) = true
  · have heq : condenseFuncType env ft feature st = (true, st) := by
      simp [condenseFuncType, hgate]
    rw [heq]; exact frameOK_refl hs
  · by_cases hsl : isSingleLine st.lines ft.span = true
    · have heq : condenseFuncType env ft feature st = (true, st) := by
        simp [condenseFuncType, hgate, hsl]
      rw [heq]; exact frameOK_refl hs
    · have heq : condenseFuncType env ft feature st
          = tryCombos env ft feature st.lines
              [[.tp, .ps, .rs], [.tp, .rs], [.ps, .rs], [.rs], [.tp, .ps], [.tp], [.ps]] true st := by
        simp [condenseFuncType, hgate, hsl]
      rw [heq]
      exact tryCombos_frame env ft feature st.lines _ true st st hwf hs rfl (frameOK_refl hs)
termination_by (sizeOf ft, 10000)

/-- Frame of the combination loop, relative to the loop's entry state. -/
theorem tryCombos_frame (env : Env) (ft : FuncTy) (feature : Feature) (snapshot : List Nat)
    (combos : List (List Pick)) (first : Bool) (st st0 : St)
    (hwf : funcTyWfB ft = true) (hs0 : SortedL st0.lines) (hsnap : snapshot = st0.lines)
    (hinv : FrameOK ft.span st0 st) :
    FrameOK ft.span st0 (tryCombos env ft feature snapshot combos first st).2 :=
  match combos with
  | [] => by
    have heq : tryCombos env ft feature snapshot [] first st = ((first == true), st) := by
      simp [tryCombos]
    rw [heq]; exact hinv
  | combo :: rest => by
    by_cases hskip : ((combo.map (pickField ft)).any (fun o => o.isNone)) = true
    · have heq : tryCombos env ft feature snapshot (combo :: rest) first st
          = tryCombos env ft feature snapshot rest first st := by
        simp only [tryCombos]
        simp [hskip]
      rw [heq]
      exact tryCombos_frame env ft feature snapshot rest first st st0 hwf hs0 hsnap hinv
    · have fr := runCombo_frame env ft feature combo st hwf hinv.1
      have frc := frameOK_trans hinv fr
      by_cases hfit : canCondense env (.funcT ft) (runCombo env ft feature combo st).2.lines = true
      · have heq : tryCombos env ft feature snapshot (combo :: rest) first st
            = (first && (combo.length == (runCombo env ft feature combo st).1),
               (runCombo env ft feature combo st).2) := by
          simp only [tryCombos]
          simp [hskip, hfit]
        rw [heq]
        exact frc
      · have heq : tryCombos env ft feature snapshot (combo :: rest) first st
            = tryCombos env ft feature snapshot rest false
                { (runCombo env ft feature combo st).2 with lines := snapshot } := by
          simp only [tryCombos]
          simp [hskip, hfit]
        rw [heq]
        apply tryCombos_frame env ft feature snapshot rest false _ st0 hwf hs0 hsnap
        rw [hsnap]
        exact frameOK_restore _ hs0
termination_by (sizeOf ft, 10 + sizeOf combos)
decreasing_by
  · apply Prod.Lex.right
    simp
    all_goals omega
  · apply Prod.Lex.right
    simp
    all_goals omega
  · apply Prod.Lex.right
    simp
    all_goals omega

/-- Frame of one combination's field loop. -/
theorem runCombo_frame (env : Env) (ft : FuncTy) (feature : Feature) (picks : List Pick) (st : St)
    (hwf : funcTyWfB ft = true) (hs : SortedL st.lines) :
    FrameOK ft.span st (runCombo env ft feature picks st).2 :=
  match picks with
  | [] => by
    have heq : runCombo env ft feature [] st = (0, st) := by simp [runCombo]
    rw [heq]; exact frameOK_refl hs
  | p :: rest => by
    have heq : runCombo env ft feature (p :: rest) st
        = (let r := condenseFieldListO env (pickField ft p) feature st
           let r2 := runCombo env ft feature rest r.2
           ((if r.1 then 1 else 0) + r2.1, r2.2)) := by
      simp [runCombo]
    rw [heq]
    have f1 := condenseFieldListO_frame env (pickField ft p) feature st ft.span
      (pickField_wf hwf p) hs
    have f2 := runCombo_frame env ft feature rest
      (condenseFieldListO env (pickField ft p) feature st).2 hwf f1.1
    exact frameOK_trans f1 f2
termination_by (sizeOf ft, 1 + sizeOf picks)
decreasing_by
  · apply Prod.Lex.left
    cases ft with
    | mk tp ps rs sp => cases p <;> simp [pickField, FuncTy.tparams, FuncTy.params, FuncTy.results] <;> omega
  · apply Prod.Lex.right
    simp
    all_goals omega

/-- Frame of `condenseFieldListO`, relative to a covering span. -/
theorem condenseFieldListO_frame (env : Env) (o : Option FieldListT) (feature : Feature)
    (st : St) (sp : Span) (hwf : optFieldListInB o sp = true) (hs : SortedL st.lines) :
    FrameOK sp st (condenseFieldListO env o feature st).2 :=
  match o, hwf with
  | none, hwf => by
    have heq : condenseFieldListO env none feature st = (true, st) := by
      simp [condenseFieldListO]
    rw [heq]; exact frameOK_refl hs
  | some fl, hwf => by
    simp only [optFieldListInB, Bool.and_eq_true] at hwf
    have heq : condenseFieldListO env (some fl) feature st = condenseFieldList env fl feature st := by
      simp [condenseFieldListO]
    rw [heq]
    exact frameOK_mono hwf.1 (condenseFieldList_frame env fl feature st hwf.2 hs)
termination_by (sizeOf o, 1)

/-- Frame of `condenseFieldList`. -/
theorem condenseFieldList_frame (env : Env) (fl : FieldListT) (feature : Feature) (st : St)
    (hwf : fieldListWfB fl = true) (hs : SortedL st.lines) :
    FrameOK fl.span st (condenseFieldList env fl feature st).2 :=
  match fl, hwf with
  | .mk fields sp, hwf => by
    simp only [fieldListWfB, Bool.and_eq_true] at hwf
    simp only [FieldListT.span]
    by_cases hsl : isSingleLine st.lines sp = true
    · have heq : condenseFieldList env (.mk fields sp) feature st = (true, st) := by
        simp [condenseFieldList, FieldListT.span, hsl]
      rw [heq]; exact frameOK_refl hs
    · by_cases hgate : (!featHas env.config.enable feature
          || hasComments env sp) = true
      · have heq : condenseFieldList env (.mk fields sp) feature st = (false, st) := by
          simp [condenseFieldList, FieldListT.span, hsl, hgate]
        rw [heq]; exact frameOK_refl hs
      · have heq : condenseFieldList env (.mk fields sp) feature st
            = (let noComplex := !(fields.any (fun f => isComplexExpr f.typ))
               let rFields := condenseFieldTypes env fields st
               if !(noComplex && rFields.1) then (false, rFields.2)
               else condenseNode env (.fieldList (.mk fields sp)) rFields.2) := by
          simp [condenseFieldList, FieldListT.span, hsl, hgate]
        rw [heq]
        have f1 := condenseFieldTypes_frame env fields st sp hwf.2 hs
        by_cases hok : (!((!(fields.any (fun f => isComplexExpr f.typ)))
            && (condenseFieldTypes env fields st).1)) = true
        · simp only [hok, if_true]
          simpa using f1
        · simp only [hok]
          simp only [Bool.false_eq_true, if_false]
          have f2 := condenseNode_frame env (.fieldList (.mk fields sp))
            (condenseFieldTypes env fields st).2 f1.1
          simp only [GoNode.span, FieldListT.span] at f2
          exact frameOK_trans f1 f2
termination_by (sizeOf fl, 1)

/-- Frame of the field-type loop, relative to a covering span. -/
theorem condenseFieldTypes_frame (env : Env) (fs : List Field) (st : St) (sp : Span)
    (hwf : fieldsInB fs sp = true) (hs : SortedL st.lines) :
    FrameOK sp st (condenseFieldTypes env fs st).2 :=
  match fs, hwf with
  | [], hwf => by
    have heq : condenseFieldTypes env [] st = (true, st) := by simp [condenseFieldTypes]
    rw [heq]; exact frameOK_refl hs
  | .mk t :: rest, hwf => by
    simp only [fieldsInB, exprInB, Bool.and_eq_true] at hwf
    have heq : condenseFieldTypes env (.mk t :: rest) st
        = (let r1 := condenseExpr env t st
           let r2 := condenseFieldTypes env rest r1.2
           (r1.1 && r2.1, r2.2)) := by
      simp [condenseFieldTypes]
    rw [heq]
    have f1 := condenseExpr_frame env t st hwf.1.2 hs
    have f2 := condenseFieldTypes_frame env rest (condenseExpr env t st).2 sp hwf.2 f1.1
    exact frameOK_trans (frameOK_mono hwf.1.1 f1) f2
termination_by (sizeOf fs, 1)
end


theorem postBlock_frame (b : Block) (st : St) (hwfb : blockWfB b = true)
    (hs : SortedL st.lines) : FrameOK b.span st (postBlock b st).1 := by
  unfold postBlock
  cases b with
  | mk stmts sp =>
    simp only [blockWfB, Bool.and_eq_true, decide_eq_true_eq] at hwfb
    simp only [Block.span]
    split
    · exact frameOK_refl hs
    · refine ⟨addNewlineTimes_sorted hs _ _, fun o ho => ?_⟩
      simp only [Block.span] at ho ⊢
      apply addNewlineTimes_mem
      omega

mutual
/-- Frame of the traversal at an expression. -/
theorem walkExpr_frame (env : Env) (x : Expr) (st : St)
    (hwf : exprWfB x = true) (hs : SortedL st.lines) :
    FrameOK x.span st (walkExpr env x st).1 :=
  match x, hwf with
  | .basicLit kind value sp, hwf => by
    have h0 := condenseExpr_frame env (.basicLit kind value sp) st hwf hs
    simp only [Expr.span] at h0 ⊢
    have heq : walkExpr env (.basicLit kind value sp) st
        = (if isSingleLine st.lines (Expr.basicLit kind value sp).span then st
           else (condenseExpr env (.basicLit kind value sp) st).2, true) := by
      simp [walkExpr]
    rw [heq]
    split
    · exact frameOK_refl hs
    · exact h0
  | .binary a b sp, hwf => by
    have h0 := condenseExpr_frame env (.binary a b sp) st hwf hs
    simp only [exprWfB, exprInB, Bool.and_eq_true] at hwf
    simp only [Expr.span] at h0 ⊢
    have heq : walkExpr env (.binary a b sp) st
        = (let st0 := if isSingleLine st.lines (Expr.binary a b sp).span then st
             else (condenseExpr env (.binary a b sp) st).2
           let r1 := walkExpr env a st0
           if !r1.2 then r1 else walkExpr env b r1.1) := by
      simp [walkExpr]
    rw [heq]
    have hpre : FrameOK sp st (if isSingleLine st.lines (Expr.binary a b sp).span then st
        else (condenseExpr env (.binary a b sp) st).2) := by
      split
      · exact frameOK_refl hs
      · exact h0
    have f1 := walkExpr_frame env a _ hwf.1.2.2 hpre.1
    have c1 := frameOK_trans hpre (frameOK_mono hwf.1.2.1 f1)
    by_cases hflag : (walkExpr env a (if isSingleLine st.lines (Expr.binary a b sp).span then st
        else (condenseExpr env (.binary a b sp) st).2)).2 = true
    · simp only [hflag, Bool.not_true]
      simp only [Bool.false_eq_true, if_false]
      have f2 := walkExpr_frame env b _ hwf.2.2 c1.1
      exact frameOK_trans c1 (frameOK_mono hwf.2.1 f2)
    · simp only [Bool.not_eq_true] at hflag
      simp only [hflag]
      simpa using c1
  | .call fn args sp, hwf => by
    have h0 := condenseExpr_frame env (.call fn args sp) st hwf hs
    simp only [exprWfB, exprInB, Bool.and_eq_true] at hwf
    simp only [Expr.span] at h0 ⊢
    have heq : walkExpr env (.call fn args sp) st
        = (let st0 := if isSingleLine st.lines (Expr.call fn args sp).span then st
             else (condenseExpr env (.call fn args sp) st).2
           let r1 := walkExpr env fn st0
           if !r1.2 then r1 else walkExprs env args r1.1) := by
      simp [walkExpr]
    rw [heq]
    have hpre : FrameOK sp st (if isSingleLine st.lines (Expr.call fn args sp).span then st
        else (condenseExpr env (.call fn args sp) st).2) := by
      split
      · exact frameOK_refl hs
      · exact h0
    have f1 := walkExpr_frame env fn _ hwf.1.2.2 hpre.1
    have c1 := frameOK_trans hpre (frameOK_mono hwf.1.2.1 f1)
    by_cases hflag : (walkExpr env fn (if isSingleLine st.lines (Expr.call fn args sp).span then st
        else (condenseExpr env (.call fn args sp) st).2)).2 = true
    · simp only [hflag, Bool.not_true]
      simp only [Bool.false_eq_true, if_false]
      have f2 := walkExprs_frame env args _ sp hwf.2 c1.1
      exact frameOK_trans c1 f2
    · simp only [Bool.not_eq_true] at hflag
      simp only [hflag]
      simpa using c1
  | .composite typ elts sp, hwf => by
    have h0 := condenseExpr_frame env (.composite typ elts sp) st hwf hs
    simp only [Expr.span] at h0 ⊢
    have hwfE : exprsInB elts sp = true := by
      cases typ with
      | none => simp only [exprWfB, Bool.and_eq_true] at hwf; exact hwf.2
      | some ty => simp only [exprWfB, Bool.and_eq_true] at hwf; exact hwf.2
    have heq : walkExpr env (.composite typ elts sp) st
        = (let st0 := if isSingleLine st.lines (Expr.composite typ elts sp).span then st
             else (condenseExpr env (.composite typ elts sp) st).2
           let r1 := walkExprO env typ st0
           if !r1.2 then r1 else walkExprs env elts r1.1) := by
      simp [walkExpr]
    rw [heq]
    have hpre : FrameOK sp st (if isSingleLine st.lines (Expr.composite typ elts sp).span then st
        else (condenseExpr env (.composite typ elts sp) st).2) := by
      split
      · exact frameOK_refl hs
      · exact h0
    have f1 : FrameOK sp
        (if isSingleLine st.lines (Expr.composite typ elts sp).span then st
         else (condenseExpr env (.composite typ elts sp) st).2)
        (walkExprO env typ (if isSingleLine st.lines (Expr.composite typ elts sp).span then st
         else (condenseExpr env (.composite typ elts sp) st).2)).1 := by
      cases typ with
      | none =>
        have heq2 : walkExprO env (none : Option Expr)
            (if isSingleLine st.lines (Expr.composite none elts sp).span then st
             else (condenseExpr env (.composite none elts sp) st).2)
            = ((if isSingleLine st.lines (Expr.composite none elts sp).span then st
             else (condenseExpr env (.composite none elts sp) st).2), true) := by
          simp [walkExprO]
        rw [heq2]
        exact frameOK_refl hpre.1
      | some ty =>
        simp only [exprWfB, exprInB, Bool.and_eq_true] at hwf
        have heq2 : walkExprO env (some ty)
            (if isSingleLine st.lines (Expr.composite (some ty) elts sp).span then st
             else (condenseExpr env (.composite (some ty) elts sp) st).2)
            = walkExpr env ty
              (if isSingleLine st.lines (Expr.composite (some ty) elts sp).span then st
               else (condenseExpr env (.composite (some ty) elts sp) st).2) := by
          simp [walkExprO]
        rw [heq2]
        exact frameOK_mono hwf.1.2.1 (walkExpr_frame env ty _ hwf.1.2.2 hpre.1)
    have c1 := frameOK_trans hpre f1
    by_cases hflag : (walkExprO env typ
        (if isSingleLine st.lines (Expr.composite typ elts sp).span then st
         else (condenseExpr env (.composite typ elts sp) st).2)).2 = true
    · simp only [hflag, Bool.not_true]
      simp only [Bool.false_eq_true, if_false]
      have f2 := walkExprs_frame env elts _ sp hwfE c1.1
      exact frameOK_trans c1 f2
    · simp only [Bool.not_eq_true] at hflag
      simp only [hflag]
      simpa using c1
  | .funcLit ft body sp, hwf => by
    have h0 := condenseExpr_frame env (.funcLit ft body sp) st hwf hs
    simp only [exprWfB, Bool.and_eq_true] at hwf
    simp only [Expr.span] at h0 ⊢
    have heq : walkExpr env (.funcLit ft body sp) st
        = (let st0 := if isSingleLine st.lines (Expr.funcLit ft body sp).span then st
             else (condenseExpr env (.funcLit ft body sp) st).2
           let r1 := walkFuncTy env ft st0
           if !r1.2 then r1 else walkBlock env body r1.1) := by
      simp [walkExpr]
    rw [heq]
    have hpre : FrameOK sp st (if isSingleLine st.lines (Expr.funcLit ft body sp).span then st
        else (condenseExpr env (.funcLit ft body sp) st).2) := by
      split
      · exact frameOK_refl hs
      · exact h0
    have f1 := walkFuncTy_frame env ft _ hwf.1.1.2 hpre.1
    have c1 := frameOK_trans hpre (frameOK_mono hwf.1.1.1.2 f1)
    by_cases hflag : (walkFuncTy env ft
        (if isSingleLine st.lines (Expr.funcLit ft body sp).span then st
         else (condenseExpr env (.funcLit ft body sp) st).2)).2 = true
    · simp only [hflag, Bool.not_true]
      simp only [Bool.false_eq_true, if_false]
      have f2 := walkBlock_frame env body _ hwf.2 c1.1
      exact frameOK_trans c1 (frameOK_mono hwf.1.2 f2)
    · simp only [Bool.not_eq_true] at hflag
      simp only [hflag]
      simpa using c1
  | .funcTypeE (.mk tp ps rs fsp), hwf => by
    have hwf2 : funcTyWfB (.mk tp ps rs fsp) = true := by simpa [exprWfB] using hwf
    have heq : walkExpr env (.funcTypeE (.mk tp ps rs fsp)) st
        = walkFuncTy env (.mk tp ps rs fsp)
            (if isSingleLine st.lines (Expr.funcTypeE (.mk tp ps rs fsp)).span then st
             else (condenseExpr env (.funcTypeE (.mk tp ps rs fsp)) st).2) := by
      simp [walkExpr]
    rw [heq]
    have hpre : FrameOK (Expr.funcTypeE (.mk tp ps rs fsp)).span st
        (if isSingleLine st.lines (Expr.funcTypeE (.mk tp ps rs fsp)).span then st
         else (condenseExpr env (.funcTypeE (.mk tp ps rs fsp)) st).2) := by
      split
      · exact frameOK_refl hs
      · exact condenseExpr_frame env (.funcTypeE (.mk tp ps rs fsp)) st hwf hs
    have f1 := walkFuncTy_frame env (.mk tp ps rs fsp) _ hwf2 hpre.1
    have hspan : (Expr.funcTypeE (.mk tp ps rs fsp)).span = (FuncTy.mk tp ps rs fsp).span := by
      simp [Expr.span, FuncTy.span]
    rw [hspan] at hpre ⊢
    exact frameOK_trans hpre f1
  | .interfaceType sp, hwf => by
    have h0 := condenseExpr_frame env (.interfaceType sp) st hwf hs
    simp only [Expr.span] at h0 ⊢
    have heq : walkExpr env (.interfaceType sp) st
        = (if isSingleLine st.lines (Expr.interfaceType sp).span then st
           else (condenseExpr env (.interfaceType sp) st).2, true) := by
      simp [walkExpr]
    rw [heq]
    split
    · exact frameOK_refl hs
    · exact h0
  | .keyValue k v sp, hwf => by
    have h0 := condenseExpr_frame env (.keyValue k v sp) st hwf hs
    simp only [exprWfB, exprInB, Bool.and_eq_true] at hwf
    simp only [Expr.span] at h0 ⊢
    have heq : walkExpr env (.keyValue k v sp) st
        = (let st0 := if isSingleLine st.lines (Expr.keyValue k v sp).span then st
             else (condenseExpr env (.keyValue k v sp) st).2
           let r1 := walkExpr env k st0
           if !r1.2 then r1 else walkExpr env v r1.1) := by
      simp [walkExpr]
    rw [heq]
    have hpre : FrameOK sp st (if isSingleLine st.lines (Expr.keyValue k v sp).span then st
        else (condenseExpr env (.keyValue k v sp) st).2) := by
      split
      · exact frameOK_refl hs
      · exact h0
    have f1 := walkExpr_frame env k _ hwf.1.2.2 hpre.1
    have c1 := frameOK_trans hpre (frameOK_mono hwf.1.2.1 f1)
    by_cases hflag : (walkExpr env k (if isSingleLine st.lines (Expr.keyValue k v sp).span then st
        else (condenseExpr env (.keyValue k v sp) st).2)).2 = true
    · simp only [hflag, Bool.not_true]
      simp only [Bool.false_eq_true, if_false]
      have f2 := walkExpr_frame env v _ hwf.2.2 c1.1
      exact frameOK_trans c1 (frameOK_mono hwf.2.1 f2)
    · simp only [Bool.not_eq_true] at hflag
      simp only [hflag]
      simpa using c1
  | .mapType k v sp, hwf => by
    have h0 := condenseExpr_frame env (.mapType k v sp) st hwf hs
    simp only [exprWfB, exprInB, Bool.and_eq_true] at hwf
    simp only [Expr.span] at h0 ⊢
    have heq : walkExpr env (.mapType k v sp) st
        = (let st0 := if isSingleLine st.lines (Expr.mapType k v sp).span then st
             else (condenseExpr env (.mapType k v sp) st).2
           let r1 := walkExpr env k st0
           if !r1.2 then r1 else walkExpr env v r1.1) := by
      simp [walkExpr]
    rw [heq]
    have hpre : FrameOK sp st (if isSingleLine st.lines (Expr.mapType k v sp).span then st
        else (condenseExpr env (.mapType k v sp) st).2) := by
      split
      · exact frameOK_refl hs
      · exact h0
    have f1 := walkExpr_frame env k _ hwf.1.2.2 hpre.1
    have c1 := frameOK_trans hpre (frameOK_mono hwf.1.2.1 f1)
    by_cases hflag : (walkExpr env k (if isSingleLine st.lines (Expr.mapType k v sp).span then st
        else (condenseExpr env (.mapType k v sp) st).2)).2 = true
    · simp only [hflag, Bool.not_true]
      simp only [Bool.false_eq_true, if_false]
      have f2 := walkExpr_frame env v _ hwf.2.2 c1.1
      exact frameOK_trans c1 (frameOK_mono hwf.2.1 f2)
    · simp only [Bool.not_eq_true] at hflag
      simp only [hflag]
      simpa using c1
  | .structType numFields sp, hwf => by
    have h0 := condenseExpr_frame env (.structType numFields sp) st hwf hs
    simp only [Expr.span] at h0 ⊢
    have heq : walkExpr env (.structType numFields sp) st
        = (if isSingleLine st.lines (Expr.structType numFields sp).span then st
           else (condenseExpr env (.structType numFields sp) st).2, true) := by
      simp [walkExpr]
    rw [heq]
    split
    · exact frameOK_refl hs
    · exact h0
  | .bad sp, hwf => by
    have h0 := condenseExpr_frame env (.bad sp) st hwf hs
    simp only [Expr.span] at h0 ⊢
    have heq : walkExpr env (.bad sp) st
        = (if isSingleLine st.lines (Expr.bad sp).span then st
           else (condenseExpr env (.bad sp) st).2, true) := by
      simp [walkExpr]
    rw [heq]
    split
    · exact frameOK_refl hs
    · exact h0
  | .atom sp, hwf => by
    have h0 := condenseExpr_frame env (.atom sp) st hwf hs
    simp only [Expr.span] at h0 ⊢
    have heq : walkExpr env (.atom sp) st
        = (if isSingleLine st.lines (Expr.atom sp).span then st
           else (condenseExpr env (.atom sp) st).2, true) := by
      simp [walkExpr]
    rw [heq]
    split
    · exact frameOK_refl hs
    · exact h0
termination_by (sizeOf x, 1)

/-- Frame of the traversal over a list of expressions. -/
theorem walkExprs_frame (env : Env) (xs : List Expr) (st : St) (sp : Span)
    (hwf : exprsInB xs sp = true) (hs : SortedL st.lines) :
    FrameOK sp st (walkExprs env xs st).1 :=
  match xs, hwf with
  | [], hwf => by
    have heq : walkExprs env [] st = (st, true) := by simp [walkExprs]
    rw [heq]; exact frameOK_refl hs
  | x :: rest, hwf => by
    simp only [exprsInB, exprInB, Bool.and_eq_true] at hwf
    have heq : walkExprs env (x :: rest) st
        = (let r1 := walkExpr env x st
           if !r1.2 then r1 else walkExprs env rest r1.1) := by
      simp [walkExprs]
    rw [heq]
    have f1 := walkExpr_frame env x st hwf.1.2 hs
    have c1 := frameOK_mono hwf.1.1 f1
    by_cases hflag : (walkExpr env x st).2 = true
    · simp only [hflag, Bool.not_true]
      simp only [Bool.false_eq_true, if_false]
      have f2 := walkExprs_frame env rest _ sp hwf.2 c1.1
      exact frameOK_trans c1 f2
    · simp only [Bool.not_eq_true] at hflag
      simp only [hflag]
      simpa using c1
termination_by (sizeOf xs, 1)

/-- Frame of the traversal at a block (including `applyPost`). -/
theorem walkBlock_frame (env : Env) (b : Block) (st : St)
    (hwf : blockWfB b = true) (hs : SortedL st.lines) :
    FrameOK b.span st (walkBlock env b st).1 :=
  match b, hwf with
  | .mk stmts sp, hwf => by
    have hwfE : exprsInB stmts sp = true := by
      simp only [blockWfB, Bool.and_eq_true] at hwf
      exact hwf.2
    have heq : walkBlock env (.mk stmts sp) st
        = (let r := walkExprs env stmts st
           if !r.2 then r else postBlock (.mk stmts sp) r.1) := by
      simp [walkBlock]
    rw [heq]
    have f1 : FrameOK (Block.mk stmts sp).span st (walkExprs env stmts st).1 := by
      have := walkExprs_frame env stmts st sp hwfE hs
      simpa [Block.span] using this
    by_cases hflag : (walkExprs env stmts st).2 = true
    · simp only [hflag, Bool.not_true]
      simp only [Bool.false_eq_true, if_false]
      have f2 := postBlock_frame (.mk stmts sp) (walkExprs env stmts st).1 hwf f1.1
      exact frameOK_trans f1 f2
    · simp only [Bool.not_eq_true] at hflag
      simp only [hflag]
      simpa using f1
termination_by (sizeOf b, 1)

/-- Frame of the traversal at a func type. -/
theorem walkFuncTy_frame (env : Env) (ft : FuncTy) (st : St)
    (hwf : funcTyWfB ft = true) (hs : SortedL st.lines) :
    FrameOK ft.span st (walkFuncTy env ft st).1 :=
  match ft, hwf with
  | .mk tp ps rs sp, hwf => by
    have hwf0 := hwf
    simp only [funcTyWfB, Bool.and_eq_true] at hwf
    simp only [FuncTy.span]
    have hwfE : exprWfB (.funcTypeE (.mk tp ps rs sp)) = true := by
      simpa [exprWfB] using hwf0
    have heq : walkFuncTy env (.mk tp ps rs sp) st
        = (let st0 := if isSingleLine st.lines sp then st
             else (condenseExpr env (.funcTypeE (.mk tp ps rs sp)) st).2
           let r1 := walkFieldListO env tp st0
           if !r1.2 then r1 else
           let r2 := walkFieldListO env ps r1.1
           if !r2.2 then r2 else walkFieldListO env rs r2.1) := by
      simp [walkFuncTy]
    rw [heq]
    have hpre : FrameOK sp st (if isSingleLine st.lines sp then st
        else (condenseExpr env (.funcTypeE (.mk tp ps rs sp)) st).2) := by
      split
      · exact frameOK_refl hs
      · have := condenseExpr_frame env (.funcTypeE (.mk tp ps rs sp)) st hwfE hs
        simpa [Expr.span, FuncTy.span] using this
    have f1 := walkFieldListO_frame env tp _ sp hwf.1.1.2 hpre.1
    have c1 := frameOK_trans hpre f1
    by_cases hflag1 : (walkFieldListO env tp (if isSingleLine st.lines sp then st
        else (condenseExpr env (.funcTypeE (.mk tp ps rs sp)) st).2)).2 = true
    · simp only [hflag1, Bool.not_true]
      simp only [Bool.false_eq_true, if_false]
      have f2 := walkFieldListO_frame env ps _ sp hwf.1.2 c1.1
      have c2 := frameOK_trans c1 f2
      by_cases hflag2 : (walkFieldListO env ps (walkFieldListO env tp
          (if isSingleLine st.lines sp then st
           else (condenseExpr env (.funcTypeE (.mk tp ps rs sp)) st).2)).1).2 = true
      · simp only [hflag2, Bool.not_true]
        simp only [Bool.false_eq_true, if_false]
        have f3 := walkFieldListO_frame env rs _ sp hwf.2 c2.1
        exact frameOK_trans c2 f3
      · simp only [Bool.not_eq_true] at hflag2
        simp only [hflag2]
        simpa using c2
    · simp only [Bool.not_eq_true] at hflag1
      simp only [hflag1]
      simpa using c1
termination_by (sizeOf ft, 1)

/-- Frame of the traversal at a field list. -/
theorem walkFieldList_frame (env : Env) (fl : FieldListT) (st : St) (sp : Span)
    (hwf : Span.subB fl.span sp = true) (hwf2 : fieldListWfB fl = true) (hs : SortedL st.lines) :
    FrameOK sp st (walkFieldList env fl st).1 :=
  match fl, hwf2 with
  | .mk fields flsp, hwf2 => by
    simp only [fieldListWfB, Bool.and_eq_true] at hwf2
    have heq : walkFieldList env (.mk fields flsp) st = walkFields env fields st := by
      simp [walkFieldList]
    rw [heq]
    have f1 := walkFields_frame env fields st flsp hwf2.2 hs
    simp only [FieldListT.span] at hwf
    exact frameOK_mono hwf f1
termination_by (sizeOf fl, 1)

/-- Frame of the traversal over fields. -/
theorem walkFields_frame (env : Env) (fs : List Field) (st : St) (sp : Span)
    (hwf : fieldsInB fs sp = true) (hs : SortedL st.lines) :
    FrameOK sp st (walkFields env fs st).1 :=
  match fs, hwf with
  | [], hwf => by
    have heq : walkFields env [] st = (st, true) := by simp [walkFields]
    rw [heq]; exact frameOK_refl hs
  | .mk t :: rest, hwf => by
    simp only [fieldsInB, exprInB, Bool.and_eq_true] at hwf
    have heq : walkFields env (.mk t :: rest) st
        = (let r1 := walkExpr env t st
           if !r1.2 then r1 else walkFields env rest r1.1) := by
      simp [walkFields]
    rw [heq]
    have f1 := walkExpr_frame env t st hwf.1.2 hs
    have c1 := frameOK_mono hwf.1.1 f1
    by_cases hflag : (walkExpr env t st).2 = true
    · simp only [hflag, Bool.not_true]
      simp only [Bool.false_eq_true, if_false]
      have f2 := walkFields_frame env rest _ sp hwf.2 c1.1
      exact frameOK_trans c1 f2
    · simp only [Bool.not_eq_true] at hflag
      simp only [hflag]
      simpa using c1
termination_by (sizeOf fs, 1)

/-- Frame of the traversal at an optional field list. -/
theorem walkFieldListO_frame (env : Env) (o : Option FieldListT) (st : St) (sp : Span)
    (hwf : optFieldListInB o sp = true) (hs : SortedL st.lines) :
    FrameOK sp st (walkFieldListO env o st).1 :=
  match o, hwf with
  | none, hwf => by
    have heq : walkFieldListO env none st = (st, true) := by simp [walkFieldListO]
    rw [heq]; exact frameOK_refl hs
  | some fl, hwf => by
    simp only [optFieldListInB, Bool.and_eq_true] at hwf
    have heq : walkFieldListO env (some fl) st = walkFieldList env fl st := by
      simp [walkFieldListO]
    rw [heq]
    exact walkFieldList_frame env fl st sp hwf.1 hwf.2 hs
termination_by (sizeOf o, 2)
end


theorem condenseFuncDecl_frame (env : Env) (recv : Option FieldListT) (ft : FuncTy)
    (sp : Span) (st : St) (hrecv : optFieldListInB recv sp = true)
    (hft : Span.subB ft.span sp = true) (hftwf : funcTyWfB ft = true)
    (hs : SortedL st.lines) : FrameOK sp st (condenseFuncDecl env recv ft sp st).2 := by
  by_cases hgate : (!featHas env.config.enable Funcs) = true
  · have heq : condenseFuncDecl env recv ft sp st = (false, st) := by
      simp [condenseFuncDecl, hgate]
    rw [heq]; exact frameOK_refl hs
  · simp only [Bool.not_eq_true, Bool.not_eq_false] at hgate
    by_cases hsl : isSingleLine st.lines sp = true
    · have heq : condenseFuncDecl env recv ft sp st = (true, st) := by
        simp [condenseFuncDecl, hgate, hsl]
      rw [heq]; exact frameOK_refl hs
    · simp only [Bool.not_eq_true] at hsl
      have heq : (condenseFuncDecl env recv ft sp st).2
          = (condenseFuncType env ft Funcs (condenseFieldListO env recv Funcs st).2).2 := by
        simp [condenseFuncDecl, hgate, hsl]
      rw [heq]
      have f1 := condenseFieldListO_frame env recv Funcs st sp hrecv hs
      have f2 := condenseFuncType_frame env ft Funcs _ hftwf f1.1
      exact frameOK_trans f1 (frameOK_mono hft f2)

theorem walkSpec_frame (env : Env) (s : Spec) (st : St)
    (hwf : specWfB s = true) (hs : SortedL st.lines) :
    FrameOK s.span st (walkSpec env s st).1 := by
  cases s with
  | val exprs sp =>
    simp only [specWfB, Bool.and_eq_true] at hwf
    have heq : walkSpec env (.val exprs sp) st = walkExprs env exprs st := by
      simp [walkSpec]
    rw [heq]
    have := walkExprs_frame env exprs st sp hwf.2 hs
    simpa [Spec.span] using this
  | typeS tparams typ sp =>
    simp only [specWfB, exprInB, Bool.and_eq_true] at hwf
    have heq : walkSpec env (.typeS tparams typ sp) st
        = (let st0 := if isSingleLine st.lines sp then st
             else (condenseFieldListO env tparams Types st).2
           let r1 := walkFieldListO env tparams st0
           if !r1.2 then r1 else walkExpr env typ r1.1) := by
      simp [walkSpec]
    rw [heq]
    have hpre : FrameOK sp st (if isSingleLine st.lines sp then st
        else (condenseFieldListO env tparams Types st).2) := by
      split
      · exact frameOK_refl hs
      · exact condenseFieldListO_frame env tparams Types st sp hwf.1.2 hs
    have f1 := walkFieldListO_frame env tparams _ sp hwf.1.2 hpre.1
    have c1 := frameOK_trans hpre f1
    by_cases hflag : (walkFieldListO env tparams (if isSingleLine st.lines sp then st
        else (condenseFieldListO env tparams Types st).2)).2 = true
    · simp only [hflag, Bool.not_true]
      simp only [Bool.false_eq_true, if_false]
      have f2 := walkExpr_frame env typ _ hwf.2.2 c1.1
      have := frameOK_trans c1 (frameOK_mono hwf.2.1 f2)
      simpa [Spec.span] using this
    · simp only [Bool.not_eq_true] at hflag
      simp only [hflag]
      simpa [Spec.span] using c1

theorem walkSpecs_frame (env : Env) (ss : List Spec) (st : St) (sp : Span)
    (hwf : specsInB ss sp = true) (hs : SortedL st.lines) :
    FrameOK sp st (walkSpecs env ss st).1 := by
  induction ss generalizing st with
  | nil =>
    have heq : walkSpecs env [] st = (st, true) := by simp [walkSpecs]
    rw [heq]; exact frameOK_refl hs
  | cons s rest ih =>
    simp only [specsInB, List.all_cons, Bool.and_eq_true] at hwf
    have heq : walkSpecs env (s :: rest) st
        = (let r1 := walkSpec env s st
           if !r1.2 then r1 else walkSpecs env rest r1.1) := by
      simp [walkSpecs]
    rw [heq]
    have f1 := walkSpec_frame env s st hwf.1.2 hs
    have c1 := frameOK_mono hwf.1.1 f1
    by_cases hflag : (walkSpec env s st).2 = true
    · simp only [hflag, Bool.not_true]
      simp only [Bool.false_eq_true, if_false]
      have f2 := ih _ hwf.2 c1.1
      exact frameOK_trans c1 f2
    · simp only [Bool.not_eq_true] at hflag
      simp only [hflag]
      simpa using c1

theorem walkDecl_frame (env : Env) (d : Decl) (st : St)
    (hwf : declWfB d = true) (hs : SortedL st.lines) :
    FrameOK d.span st (walkDecl env d st).1 := by
  cases d with
  | gen lparen specs sp =>
    simp only [declWfB, Bool.and_eq_true] at hwf
    have heq : walkDecl env (.gen lparen specs sp) st
        = walkSpecs env specs
            (if isSingleLine st.lines sp then st
             else if replaceGenDeclChanged env lparen specs.length sp st.lines &&
                     canCondense env (.decl (.gen false specs sp)) st.lines then
               { st with lines := removeLinesL st.lines (lineOf st.lines sp.s) (lineOf st.lines sp.t) }
             else st) := by
      simp [walkDecl]
    rw [heq]
    have hpre : FrameOK sp st (if isSingleLine st.lines sp then st
        else if replaceGenDeclChanged env lparen specs.length sp st.lines &&
                canCondense env (.decl (.gen false specs sp)) st.lines then
          { st with lines := removeLinesL st.lines (lineOf st.lines sp.s) (lineOf st.lines sp.t) }
        else st) := by
      split
      · exact frameOK_refl hs
      · split
        · exact ⟨removeLinesL_sorted hs _ _, fun o ho => removeLinesL_frame hs o ho⟩
        · exact frameOK_refl hs
    have f1 := walkSpecs_frame env specs _ sp hwf.2 hpre.1
    have := frameOK_trans hpre f1
    simpa [Decl.span] using this
  | func recv ft body sp =>
    simp only [declWfB, Bool.and_eq_true] at hwf
    have heq : walkDecl env (.func recv ft body sp) st
        = (let st0 := if isSingleLine st.lines sp then st
             else (condenseFuncDecl env recv ft sp st).2
           let r1 := walkFieldListO env recv st0
           if !r1.2 then r1 else
           let r2 := walkFuncTy env ft r1.1
           if !r2.2 then r2 else walkBlockO env body r2.1) := by
      simp [walkDecl]
    rw [heq]
    have hpre : FrameOK sp st (if isSingleLine st.lines sp then st
        else (condenseFuncDecl env recv ft sp st).2) := by
      split
      · exact frameOK_refl hs
      · exact condenseFuncDecl_frame env recv ft sp st hwf.1.1.1.2 hwf.1.1.2 hwf.1.2 hs
    have f1 := walkFieldListO_frame env recv _ sp hwf.1.1.1.2 hpre.1
    have c1 := frameOK_trans hpre f1
    by_cases hflag1 : (walkFieldListO env recv (if isSingleLine st.lines sp then st
        else (condenseFuncDecl env recv ft sp st).2)).2 = true
    · simp only [hflag1, Bool.not_true]
      simp only [Bool.false_eq_true, if_false]
      have f2 := walkFuncTy_frame env ft _ hwf.1.2 c1.1
      have c2 := frameOK_trans c1 (frameOK_mono hwf.1.1.2 f2)
      by_cases hflag2 : (walkFuncTy env ft (walkFieldListO env recv
          (if isSingleLine st.lines sp then st
           else (condenseFuncDecl env recv ft sp st).2)).1).2 = true
      · simp only [hflag2, Bool.not_true]
        simp only [Bool.false_eq_true, if_false]
        have f3 : FrameOK sp (walkFuncTy env ft (walkFieldListO env recv
            (if isSingleLine st.lines sp then st
             else (condenseFuncDecl env recv ft sp st).2)).1).1
            (walkBlockO env body (walkFuncTy env ft (walkFieldListO env recv
            (if isSingleLine st.lines sp then st
             else (condenseFuncDecl env recv ft sp st).2)).1).1).1 := by
          cases body with
          | none =>
            have heq2 : ∀ s2 : St, walkBlockO env (none : Option Block) s2 = (s2, true) := by
              intro s2; simp [walkBlockO]
            rw [heq2]
            exact frameOK_refl c2.1
          | some b =>
            have heq2 : ∀ s2 : St, walkBlockO env (some b) s2 = walkBlock env b s2 := by
              intro s2; simp [walkBlockO]
            rw [heq2]
            have hb : Span.subB b.span sp = true ∧ blockWfB b = true := by
              have := hwf.2
              simp only [Bool.and_eq_true] at this
              exact this
            exact frameOK_mono hb.1 (walkBlock_frame env b _ hb.2 c2.1)
        have := frameOK_trans c2 f3
        simpa [Decl.span] using this
      · simp only [Bool.not_eq_true] at hflag2
        simp only [hflag2]
        simpa [Decl.span] using c2
    · simp only [Bool.not_eq_true] at hflag1
      simp only [hflag1]
      simpa [Decl.span] using c1

theorem walkDecls_frame (env : Env) (ds : List Decl) (st : St)
    (hwf : declsWfB ds = true) (hs : SortedL st.lines) :
    SortedL (walkDecls env ds st).1.lines ∧
      ∀ o : Nat, (∀ d ∈ ds, o ≤ d.span.s ∨ d.span.t < o) →
        (o ∈ (walkDecls env ds st).1.lines ↔ o ∈ st.lines) := by
  induction ds generalizing st with
  | nil =>
    have heq : walkDecls env [] st = (st, true) := by simp [walkDecls]
    rw [heq]
    exact ⟨hs, fun o _ => Iff.rfl⟩
  | cons d rest ih =>
    simp only [declsWfB, List.all_cons, Bool.and_eq_true] at hwf
    have heq : walkDecls env (d :: rest) st
        = (let r1 := walkDecl env d st
           if !r1.2 then r1 else walkDecls env rest r1.1) := by
      simp [walkDecls]
    rw [heq]
    have f1 := walkDecl_frame env d st hwf.1 hs
    by_cases hflag : (walkDecl env d st).2 = true
    · simp only [hflag, Bool.not_true]
      simp only [Bool.false_eq_true, if_false]
      have h2 := ih _ hwf.2 f1.1
      refine ⟨h2.1, fun o ho => ?_⟩
      exact (h2.2 o (fun d' hd' => ho d' (List.mem_cons_of_mem d hd'))).trans
        (f1.2 o (ho d (List.mem_cons_self d rest)))
    · simp only [Bool.not_eq_true] at hflag
      simp only [hflag]
      refine ⟨f1.1, fun o ho => ?_⟩
      simpa using f1.2 o (ho d (List.mem_cons_self d rest))


/-! ### Claim theorems -/

/-- Claim C8: when the parsed file carries the auto-generated marker,
`Formatter.Format` returns the original source bytes unchanged (`.ok src`)
and never an error, for every configuration, printer, source and parsed
file. -/
theorem C8_generated_noop (env : Env) (printer : List Decl → St → Option String)
    (src : String) (decls : List Decl) (st : St) :
    FormatRun env printer src (.ok decls st true) = .ok src := rfl

set_option maxRecDepth 10000 in
unseal condenseExpr condenseExprList condenseCallExpr condenseCompositeLit condenseFuncLit condenseFieldTypes condenseFieldList condenseFieldListO runCombo tryCombos condenseFuncType in
/-- Claim C6 (code bug): `condenseCompositeLit` compares the element count
against the raw `MaxKeyValue` with no zero fallback, so with
`MaxKeyValue = 0` even a one-element map literal is rejected (`0` means
"condense nothing", not "unbounded" as the `Config` doc comment promises),
while the documented default `3` condenses it. -/
theorem C6_maxkeyvalue_zero_rejects :
    condenseCompositeLit envC6zero (some mapLit6typ) mapLit6elts ⟨1, 27⟩ stC6
      = (false, stC6) ∧
    condenseCompositeLit envC6default (some mapLit6typ) mapLit6elts ⟨1, 27⟩ stC6
      = (true, ⟨[0], []⟩) ∧
    mapLit6elts.length = 1 ∧ envC6zero.config.maxKeyValue = 0 ∧
    envC6zero.config.enable = All := by decide

set_option maxRecDepth 100000 in
set_option maxHeartbeats 8000000 in
/-- Claim C1 (code bug): `Format` is not idempotent.  On the run-1 file the
func literal registers its body in `addLines`; when `applyPost` re-adds the
protected newline the map becomes empty and `applyPost` returns false,
which aborts the whole `astutil.Apply` traversal before the second
declaration (`var (x = 1)`) is visited — it stays multi-line.  Running the
formatter again on the reparsed output (run 2) condenses that declaration,
so the two outputs differ. -/
theorem C1_second_run_condenses_more :
    walkDecls envC1 fileC1run1 stC1run1 = (⟨[0, 13, 14, 55, 56, 62, 69], []⟩, false) ∧
    walkDecls envC1 fileC1run2 stC1run2 = (⟨[0, 13, 14, 51, 52], []⟩, true) ∧
    isSingleLine (walkDecls envC1 fileC1run1 stC1run1).1.lines declC1b.span = false ∧
    isSingleLine (walkDecls envC1 fileC1run2 stC1run2).1.lines declC2b.span = true := by
  have h1 : walkDecls envC1 fileC1run1 stC1run1 = (⟨[0, 13, 14, 55, 56, 62, 69], []⟩, false) := by
    simp [walkDecls, walkDecl, walkSpecs, walkSpec, walkExprs, walkExprO, walkExpr, walkFuncTy,
      walkBlock, walkBlockO, walkFieldListO, walkFieldList, walkFields, postBlock, condenseExpr,
      condenseExprList, condenseCallExpr, condenseCompositeLit, condenseFuncLit, condenseFuncDecl,
      condenseFuncType, tryCombos, runCombo, condenseFieldListO, condenseFieldList,
      condenseFieldTypes, condenseNode, condenseBasicLit, canCondense, isSingleLine, lineOf,
      removeLinesL, addNewline, addNewlineTimes, insertAddLines, hasComments, hasCommentsInRange,
      replaceGenDeclChanged, pickField, allOK, compositeFeature, isComplexExpr, featHas, envC1,
      renderC1, fileC1run1, declC1a, declC1b, funcLit1, ft1, fl1params, fl1results, body1,
      stC1run1, DefaultConfig, All, Literals, Declarations, Funcs, Expr.span, Block.span,
      Block.stmts, FieldListT.span, FieldListT.fields, FuncTy.span, FuncTy.tparams, FuncTy.params,
      FuncTy.results, Decl.span, Spec.span, GoNode.span, Field.typ]
  have h2 : walkDecls envC1 fileC1run2 stC1run2 = (⟨[0, 13, 14, 51, 52], []⟩, true) := by
    simp [walkDecls, walkDecl, walkSpecs, walkSpec, walkExprs, walkExprO, walkExpr, walkFuncTy,
      walkBlock, walkBlockO, walkFieldListO, walkFieldList, walkFields, postBlock, condenseExpr,
      condenseExprList, condenseCallExpr, condenseCompositeLit, condenseFuncLit, condenseFuncDecl,
      condenseFuncType, tryCombos, runCombo, condenseFieldListO, condenseFieldList,
      condenseFieldTypes, condenseNode, condenseBasicLit, canCondense, isSingleLine, lineOf,
      removeLinesL, addNewline, addNewlineTimes, insertAddLines, hasComments, hasCommentsInRange,
      replaceGenDeclChanged, pickField, allOK, compositeFeature, isComplexExpr, featHas, envC1,
      renderC1, fileC1run2, declC2a, declC2b, funcLit2, ft2, fl2params, fl2results, body2,
      stC1run2, DefaultConfig, All, Literals, Declarations, Funcs, Expr.span, Block.span,
      Block.stmts, FieldListT.span, FieldListT.fields, FuncTy.span, FuncTy.tparams, FuncTy.params,
      FuncTy.results, Decl.span, Spec.span, GoNode.span, Field.typ]
  refine ⟨h1, h2, ?_, ?_⟩
  · rw [h1]; decide
  · rw [h2]; decide

set_option maxRecDepth 10000 in
unseal condenseExpr condenseExprList condenseCallExpr condenseCompositeLit condenseFuncLit condenseFieldTypes condenseFieldList condenseFieldListO runCombo tryCombos condenseFuncType walkExpr walkExprs walkExprO walkBlock walkFuncTy walkFieldList walkFields walkFieldListO in
/-- Claim C2 counterexample: the output of `Format` is not byte-identical
to the input outside condensed spans.  On `var x  = 1` (extra space) the
engine condenses nothing — the traversal leaves the state untouched — yet
the final whole-file `format.Node` print is the canonical `var x = 1`,
which differs from the input. -/
theorem C2_printer_not_byte_identical :
    FormatRun envC2 printerC2 srcC2 (.ok declsC2 stC2 false) = .ok outC2 ∧
    (walkDecls envC2 declsC2 stC2).1 = stC2 ∧
    srcC2 ≠ outC2 :=
  ⟨rfl, by decide, by decide⟩

/-- Claim C2 (amended): what the engine itself guarantees is a frame on the
line table: the traversal keeps it strictly sorted, and the membership of
every offset outside the (condensable) declaration spans is unchanged —
only line starts inside a visited declaration are ever merged away or
re-inserted.  Byte-identity of the final text is up to the external
`format.Node` printer, which re-prints the whole file canonically. -/
theorem C2_engine_frame (env : Env) (ds : List Decl) (st : St)
    (hwf : declsWfB ds = true) (hs : SortedL st.lines) :
    SortedL (walkDecls env ds st).1.lines ∧
      ∀ o : Nat, (∀ d ∈ ds, o ≤ d.span.s ∨ d.span.t < o) →
        (o ∈ (walkDecls env ds st).1.lines ↔ o ∈ st.lines) :=
  walkDecls_frame env ds st hwf hs

set_option maxRecDepth 10000 in
unseal condenseExpr condenseExprList condenseCallExpr condenseCompositeLit condenseFuncLit condenseFieldTypes condenseFieldList condenseFieldListO runCombo tryCombos condenseFuncType walkExpr walkExprs walkExprO walkBlock walkFuncTy walkFieldList walkFields walkFieldListO exprWfB exprInB exprsInB blockWfB fieldListWfB fieldsInB optFieldListInB funcTyWfB in
/-- Claim C2 witness: the frame theorem applied to the concrete C2 file at
offset 7 (before the declaration at 14–24). -/
theorem C2_engine_frame_witness :
    declsWfB declsC2 = true ∧ SortedL stC2.lines ∧
    ((7 : Nat) ∈ (walkDecls envC2 declsC2 stC2).1.lines ↔ (7 : Nat) ∈ stC2.lines) :=
  ⟨by decide, by unfold SortedL; decide,
    (C2_engine_frame envC2 declsC2 stC2 (by decide) (by unfold SortedL; decide)).2 7 (by decide)⟩

/-- Claim C4 (amended): a node whose span contains a comment is refused by
`condenseExpr` itself — the result is false and the state is returned
untouched.  (The original claim — that such a node is left multi-line by
the whole of `Format` — fails: see the counterexample.) -/
theorem C4_comment_blocks_condenseExpr (env : Env) (x : Expr) (st : St)
    (h : hasComments env x.span = true) : condenseExpr env x st = (false, st) := by
  cases x <;> simp [condenseExpr, h]

set_option maxRecDepth 10000 in
unseal condenseExpr condenseExprList condenseCallExpr condenseCompositeLit condenseFuncLit condenseFieldTypes condenseFieldList condenseFieldListO runCombo tryCombos condenseFuncType in
/-- Claim C4 witness: the comment-bearing outer call of the C4 file is
refused by `condenseExpr`. -/
theorem C4_comment_blocks_witness :
    hasComments envC4 fCall.span = true ∧
    condenseExpr envC4 fCall stC4 = (false, stC4) :=
  ⟨by decide, C4_comment_blocks_condenseExpr envC4 fCall stC4 (by decide)⟩

set_option maxRecDepth 10000 in
unseal condenseExpr condenseExprList condenseCallExpr condenseCompositeLit condenseFuncLit condenseFieldTypes condenseFieldList condenseFieldListO runCombo tryCombos condenseFuncType walkExpr walkExprs walkExprO walkBlock walkFuncTy walkFieldList walkFields walkFieldListO in
/-- Claim C4 counterexample: the multi-line call `f(a, /* c */ g(x))`
contains a comment, yet after the traversal its span has become
single-line — the comment-free child `g(...)` condensed independently and
merged away the lines between the outer call's start and end.  The outer
node is thus not "left in its original multi-line form". -/
theorem C4_container_becomes_single_line :
    hasComments envC4 fCall.span = true ∧
    isSingleLine stC4.lines fCall.span = false ∧
    walkExpr envC4 fCall stC4 = (⟨[0, 13, 14, 25, 48], []⟩, true) ∧
    isSingleLine (walkExpr envC4 fCall stC4).1.lines fCall.span = true := by
  decide

/-- Claim C3 (amended): `canCondense` measures the node's rendering in
isolation with `len + tabs*tabWidth - 1 ≤ maxLen` (no prefix/suffix
context, off by one): on failure the original layout is restored
unchanged, and on success every rendered line's tab-expanded width is
bounded only by the effective `maxLen + 1`, not `maxLen` — see the
counterexample for an accepted line one byte over the ceiling. -/
theorem C3_length_check (env : Env) (node : GoNode) (st : St) (ls : List RLine)
    (hsl : isSingleLine st.lines node.span = false)
    (hr : env.render node (removeLinesL st.lines (lineOf st.lines node.span.s)
            (lineOf st.lines node.span.t)) = some ls) :
    (canCondense env node (removeLinesL st.lines (lineOf st.lines node.span.s)
        (lineOf st.lines node.span.t)) = false → condenseNode env node st = (false, st)) ∧
    (canCondense env node (removeLinesL st.lines (lineOf st.lines node.span.s)
        (lineOf st.lines node.span.t)) = true →
      ∀ l ∈ ls, actualWidth l (if env.config.tabWidth = 0 then DefaultConfig.tabWidth
          else env.config.tabWidth)
        ≤ (if env.config.maxLen = 0 then DefaultConfig.maxLen else env.config.maxLen) + 1) := by
  constructor
  · intro hc
    unfold condenseNode
    simp [hsl, hc]
  · intro hc l hl
    simp only [canCondense, hr, List.all_eq_true, decide_eq_true_eq] at hc
    have h2 := hc l hl
    unfold actualWidth
    generalize hM : (if env.config.maxLen = 0 then DefaultConfig.maxLen
        else env.config.maxLen) = M at h2 ⊢
    by_cases htw : env.config.tabWidth = 0
    · simp only [htw, if_pos rfl] at h2 ⊢
      simp only [DefaultConfig] at h2 ⊢
      simp only [if_true] at h2 ⊢
      rw [← Nat.cast_mul] at h2
      omega
    · simp only [if_neg htw] at h2 ⊢
      rw [← Nat.cast_mul] at h2
      have h2n : l.len + l.tabs * env.config.tabWidth ≤ M + 1 := by omega
      have hmono : l.tabs * (env.config.tabWidth - 1) ≤ l.tabs * env.config.tabWidth :=
        Nat.mul_le_mul_left _ (Nat.sub_le _ _)
      generalize l.tabs * (env.config.tabWidth - 1) = A at hmono ⊢
      generalize l.tabs * env.config.tabWidth = B at hmono h2n
      omega

/-- Claim C3 witness: the length theorem applied to the concrete C3
instance. -/
theorem C3_length_check_witness :
    isSingleLine stC3.lines nodeC3.span = false ∧
    envC3.render nodeC3 (removeLinesL stC3.lines (lineOf stC3.lines nodeC3.span.s)
        (lineOf stC3.lines nodeC3.span.t)) = some [⟨6, 0⟩] ∧
    (canCondense envC3 nodeC3 (removeLinesL stC3.lines (lineOf stC3.lines nodeC3.span.s)
        (lineOf stC3.lines nodeC3.span.t)) = false →
      condenseNode envC3 nodeC3 stC3 = (false, stC3)) :=
  ⟨by decide, by decide, (C3_length_check envC3 nodeC3 stC3 [⟨6, 0⟩] (by decide) (by decide)).1⟩

/-- Claim C3 counterexample: under `MaxLen = 5` the node's 6-byte
single-line rendering (tab-expanded width 6) is accepted and committed:
`canCondense` checks `6 + 0 - 1 ≤ 5`.  The produced line exceeds the
ceiling, and no prefix/suffix context is consulted at all — the renderer is
called on the node alone. -/
theorem C3_accepts_over_limit :
    condenseNode envC3 nodeC3 stC3 = (true, ⟨[0], []⟩) ∧
    envC3.render nodeC3 [0] = some [⟨6, 0⟩] ∧
    actualWidth ⟨6, 0⟩ envC3.config.tabWidth = 6 ∧
    envC3.config.maxLen = 5 := by decide


set_option maxRecDepth 10000 in
unseal condenseExpr condenseExprList condenseCallExpr condenseCompositeLit condenseFuncLit condenseFieldTypes condenseFieldList condenseFieldListO runCombo tryCombos condenseFuncType walkExpr walkExprs walkExprO walkBlock walkFuncTy walkFieldList walkFields walkFieldListO in
/-- Claim C5: disabling a category's feature bit guarantees the category's
condensers commit nothing: `condenseCallExpr`, `condenseFuncDecl` and
`condenseFuncLit` return false with the state untouched,
`condenseCompositeLit` and `condenseFieldList` return the state untouched
and succeed only when the construct is already single-line,
`condenseFuncType` is a no-op, and for the `Declarations` category
`replaceGenDecl` never reports a changed node, so `walkDecl` performs no
merge on a declaration group and just walks its specs — all regardless of
length and item-count settings.  Last conjunct: with `Calls` disabled the
concrete multi-line call is left alone while its slice-literal argument
(category `Slices`, enabled) is still condensed independently by the
traversal. -/
theorem C5_feature_gating :
    (∀ (env : Env) (lparen : Bool) (numSpecs : Nat) (sp : Span) (lines : List Nat),
      featHas env.config.enable Declarations = false →
        replaceGenDeclChanged env lparen numSpecs sp lines = false) ∧
    (∀ (env : Env) (lparen : Bool) (specs : List Spec) (sp : Span) (st : St),
      featHas env.config.enable Declarations = false →
        walkDecl env (.gen lparen specs sp) st = walkSpecs env specs st) ∧
    (∀ (env : Env) (fn : Expr) (args : List Expr) (sp : Span) (st : St),
      featHas env.config.enable Calls = false →
        condenseCallExpr env fn args sp st = (false, st)) ∧
    (∀ (env : Env) (typ : Option Expr) (elts : List Expr) (sp : Span) (st : St),
      featHas env.config.enable (compositeFeature typ elts) = false →
        (condenseCompositeLit env typ elts sp st).2 = st ∧
        ((condenseCompositeLit env typ elts sp st).1 = true →
          isSingleLine st.lines sp = true)) ∧
    (∀ (env : Env) (recv : Option FieldListT) (ft : FuncTy) (sp : Span) (st : St),
      featHas env.config.enable Funcs = false →
        condenseFuncDecl env recv ft sp st = (false, st)) ∧
    (∀ (env : Env) (ft : FuncTy) (body : Block) (sp : Span) (st : St),
      featHas env.config.enable Literals = false →
        condenseFuncLit env ft body sp st = (false, st)) ∧
    (∀ (env : Env) (ft : FuncTy) (feature : Feature) (st : St),
      featHas env.config.enable feature = false →
        condenseFuncType env ft feature st = (true, st)) ∧
    (∀ (env : Env) (fl : FieldListT) (feature : Feature) (st : St),
      featHas env.config.enable feature = false →
        (condenseFieldList env fl feature st).2 = st ∧
        ((condenseFieldList env fl feature st).1 = true →
          isSingleLine st.lines fl.span = true)) ∧
    (featHas envC5.config.enable Calls = false ∧
     featHas envC5.config.enable Slices = true ∧
     walkExpr envC5 callC5 stC5 = (⟨[0, 40], []⟩, true) ∧
     isSingleLine (walkExpr envC5 callC5 stC5).1.lines sliceLit.span = true ∧
     isSingleLine (walkExpr envC5 callC5 stC5).1.lines callC5.span = false) := by
  refine ⟨?_, ?_, ?_, ?_, ?_, ?_, ?_, ?_, by decide⟩
  · intro env lparen numSpecs sp lines h
    simp [replaceGenDeclChanged, h]
  · intro env lparen specs sp st h
    have hr : replaceGenDeclChanged env lparen specs.length sp st.lines = false := by
      simp [replaceGenDeclChanged, h]
    simp [walkDecl, hr]
  · intro env fn args sp st h
    simp [condenseCallExpr, h]
  · intro env typ elts sp st h
    by_cases h1 : (hasComments env sp || elts.any isComplexExpr) = true
    · constructor <;> simp [condenseCompositeLit, h1]
    · simp only [Bool.not_eq_true] at h1
      by_cases h2 : isSingleLine st.lines sp = true
      · constructor <;> simp [condenseCompositeLit, h1, h2]
      · simp only [Bool.not_eq_true] at h2
        constructor <;> simp [condenseCompositeLit, h1, h2, h]
  · intro env recv ft sp st h
    simp [condenseFuncDecl, h]
  · intro env ft body sp st h
    simp [condenseFuncLit, h]
  · intro env ft feature st h
    simp [condenseFuncType, h]
  · intro env fl feature st h
    cases fl with
    | mk fields sp =>
      by_cases h2 : isSingleLine st.lines sp = true
      · constructor <;> simp [condenseFieldList, h2, FieldListT.span]
      · simp only [Bool.not_eq_true] at h2
        constructor <;> simp [condenseFieldList, h2, h, FieldListT.span]

set_option maxRecDepth 10000 in
unseal condenseExpr condenseExprList condenseCallExpr condenseCompositeLit condenseFuncLit condenseFieldTypes condenseFieldList condenseFieldListO runCombo tryCombos condenseFuncType in
/-- Claim C5 witness: the declaration-group gate and the call gate applied
to concrete inputs with the respective feature disabled. -/
theorem C5_feature_gating_witness :
    (featHas { envC5 with config := { envC5.config with enable := All - Declarations
        } }.config.enable Declarations = false ∧
      replaceGenDeclChanged { envC5 with config := { envC5.config with
        enable := All - Declarations } } true 1 ⟨0, 41⟩ stC5.lines = false) ∧
    featHas envC5.config.enable Calls = false ∧
    condenseCallExpr envC5 (.atom ⟨0, 1⟩) [sliceLit] ⟨0, 41⟩ stC5 = (false, stC5) :=
  ⟨⟨by decide, C5_feature_gating.1 { envC5 with config := { envC5.config with
      enable := All - Declarations } } true 1 ⟨0, 41⟩ stC5.lines (by decide)⟩,
   by decide, C5_feature_gating.2.2.1 envC5 (.atom ⟨0, 1⟩) [sliceLit] ⟨0, 41⟩ stC5 (by decide)⟩

/-- Claim C7 (amended): the only merge steps the code performs are inside
`canCondense` — a zero `MaxLen` or `TabWidth` falls back to the
`DefaultConfig` values 80 and 4 — and in the spec-modelled `limits`
(override-then-global-then-default for length and item count).  The item
ceiling `MaxKeyValue` has NO zero fallback in the code: with it zero, a
keyed (struct/map) multi-line literal with at least one element is always
rejected, contradicting both the fallback and "0 means unbounded"
readings. -/
theorem C7_limit_fallbacks :
    (∀ (env : Env) (node : GoNode) (lines : List Nat),
      canCondense env node lines
        = canCondense { env with config := { env.config with
            maxLen := if env.config.maxLen = 0 then DefaultConfig.maxLen else env.config.maxLen,
            tabWidth := if env.config.tabWidth = 0 then DefaultConfig.tabWidth
              else env.config.tabWidth } } node lines) ∧
    (∀ (c : Config) (ov : Feature → Option ConfigOverride) (feat : Feature),
      ov feat = none →
        limits c ov feat
          = (if c.maxLen ≠ 0 then c.maxLen else DefaultConfig.maxLen,
             if c.maxKeyValue ≠ 0 then c.maxKeyValue else DefaultConfig.maxKeyValue)) ∧
    (∀ (env : Env) (typ : Option Expr) (elts : List Expr) (sp : Span) (st : St),
      env.config.maxKeyValue = 0 →
      (compositeFeature typ elts == Structs || compositeFeature typ elts == Maps) = true →
      1 ≤ elts.length →
      hasComments env sp = false → elts.any isComplexExpr = false →
      isSingleLine st.lines sp = false →
      condenseCompositeLit env typ elts sp st = (false, st)) := by
  refine ⟨?_, ?_, ?_⟩
  · intro env node lines
    by_cases hm : env.config.maxLen = 0 <;> by_cases ht : env.config.tabWidth = 0 <;>
      simp [canCondense, hm, ht, DefaultConfig]
  · intro c ov feat h
    simp [limits, h]
  · intro env typ elts sp st hz hfeat hlen hcom hcx hsl
    by_cases hf : featHas env.config.enable (compositeFeature typ elts) = true
    · simp [condenseCompositeLit, hcom, hcx, hsl, hf, hfeat, hz]
      intro h0
      subst h0
      simp at hlen
    · simp only [Bool.not_eq_true] at hf
      simp [condenseCompositeLit, hcom, hcx, hsl, hf]

set_option maxRecDepth 10000 in
unseal condenseExpr condenseExprList condenseCallExpr condenseCompositeLit condenseFuncLit condenseFieldTypes condenseFieldList condenseFieldListO runCombo tryCombos condenseFuncType in
/-- Claim C7 witness: the `limits` merge on an all-zero global
configuration with no override yields the documented defaults, and the
no-fallback conjunct applied to the concrete two-element struct literal
under `MaxKeyValue = 0`. -/
theorem C7_limit_fallbacks_witness :
    limits ⟨0, 0, 0, All⟩ (fun _ => none) Structs
      = (DefaultConfig.maxLen, DefaultConfig.maxKeyValue) ∧
    condenseCompositeLit envC7zero none structLit7elts ⟨1, 35⟩ stC7 = (false, stC7) :=
  ⟨by rw [C7_limit_fallbacks.2.1 ⟨0, 0, 0, All⟩ (fun _ => none) Structs rfl]; decide,
   C7_limit_fallbacks.2.2 envC7zero none structLit7elts ⟨1, 35⟩ stC7 rfl (by decide)
     (by decide) (by decide) (by decide) (by decide)⟩

set_option maxRecDepth 10000 in
unseal condenseExpr condenseExprList condenseCallExpr condenseCompositeLit condenseFuncLit condenseFieldTypes condenseFieldList condenseFieldListO runCombo tryCombos condenseFuncType in
/-- Claim C7 counterexample: under `MaxKeyValue = 0` the two-element struct
literal is rejected, while the documented default ceiling 3 condenses the
same literal in the same state — zero neither falls back to the default
nor means unbounded. -/
theorem C7_zero_is_not_default :
    condenseCompositeLit envC7zero none structLit7elts ⟨1, 35⟩ stC7 = (false, stC7) ∧
    condenseCompositeLit envC7three none structLit7elts ⟨1, 35⟩ stC7 = (true, ⟨[0], []⟩) ∧
    envC7zero.config.maxKeyValue = 0 ∧ structLit7elts.length = 2 := by decide


theorem runCombo_state (env : Env) (ft : FuncTy) (feature : Feature) (picks : List Pick)
    (st : St) :
    (runCombo env ft feature picks st).2
      = picks.foldl (fun s2 p => (condenseFieldListO env (pickField ft p) feature s2).2) st := by
  induction picks generalizing st with
  | nil => simp [runCombo]
  | cons p rest ih => simp [runCombo, ih]

theorem tryCombos_spec (env : Env) (ft : FuncTy) (feature : Feature) (snapshot : List Nat)
    (combos : List (List Pick)) (first : Bool) (st : St) (hinv : st.lines = snapshot) :
    (tryCombos env ft feature snapshot combos first st).2
      = specFirstFitGo env feature (.funcT ft) snapshot
          (combos.map (fun c => c.map (pickField ft))) st := by
  induction combos generalizing first st with
  | nil =>
    simp only [tryCombos, specFirstFitGo, List.map_nil]
    cases st with
    | mk lines addLines => simp_all
  | cons combo rest ih =>
    simp only [List.map_cons]
    by_cases hskip : (combo.map (pickField ft)).any (fun o => o.isNone) = true
    · simp only [tryCombos, specFirstFitGo, hskip, if_pos rfl]
      exact ih first st hinv
    · have hfold : (combo.map (pickField ft)).foldl
          (fun s2 o => (condenseFieldListO env o feature s2).2) st
          = (runCombo env ft feature combo st).2 := by
        rw [runCombo_state, List.foldl_map]
      by_cases hcc : canCondense env (.funcT ft) (runCombo env ft feature combo st).2.lines = true
      · simp [tryCombos, specFirstFitGo, hskip, hcc, hfold]
      · simp only [Bool.not_eq_true] at hcc
        simp only [tryCombos, specFirstFitGo, hskip, hfold, hcc]
        simp only [Bool.false_eq_true, if_false]
        exact ih false _ rfl

/-- Claim C9: on a multi-line function signature with an enabled feature,
`condenseFuncType` computes exactly the spec's canonical first-fit policy:
try the descending combination list of the three sub-lists (type
parameters, value parameters, results), skip combinations with a missing
list, accept the first whose rendering fits, restoring the entry line
table before each further attempt, and fall back to the fully multi-line
entry layout when no combination fits. -/
theorem C9_first_fit (env : Env) (ft : FuncTy) (feature : Feature) (st : St)
    (hgate : featHas env.config.enable feature = true)
    (hml : isSingleLine st.lines ft.span = false) :
    (condenseFuncType env ft feature st).2 = specFirstFit env ft feature st := by
  cases ft with
  | mk tp ps rs sp =>
    simp only [condenseFuncType, hgate, hml, Bool.not_true, Bool.false_eq_true, if_false]
    rw [tryCombos_spec env (.mk tp ps rs sp) feature st.lines _ true st rfl]
    simp [specFirstFit, pickField, FuncTy.tparams, FuncTy.params, FuncTy.results]

/-- Claim C9 witness: the first-fit theorem applied to the concrete
multi-line func type of the C1 file under `Literals`. -/
theorem C9_first_fit_witness :
    featHas envC1.config.enable Literals = true ∧
    isSingleLine stC1run1.lines ft1.span = false ∧
    (condenseFuncType envC1 ft1 Literals stC1run1).2 = specFirstFit envC1 ft1 Literals stC1run1 :=
  ⟨by decide, by decide, C9_first_fit envC1 ft1 Literals stC1run1 (by decide) (by decide)⟩

theorem lineOf_lt_inner (lines : List Nat) {o s t : Nat} (ho : o ∈ lines) (hs : s < o)
    (ht : o ≤ t) : lineOf lines s < lineOf lines t := by
  induction lines with
  | nil => cases ho
  | cons x xs ih =>
    unfold lineOf at ih ⊢
    simp only [List.countP_cons]
    rcases List.mem_cons.mp ho with rfl | hxs
    · have hm := lineOf_mono xs (le_trans (Nat.le_of_lt hs) ht)
      unfold lineOf at hm
      have h1 : decide (o ≤ s) = false := by simp; omega
      have h2 : decide (o ≤ t) = true := by simp [ht]
      simp only [h1, h2]
      simp
      omega
    · have hlt := ih hxs
      by_cases hx : x ≤ s
      · simp [hx, le_trans hx (le_trans (Nat.le_of_lt hs) ht)]
        omega
      · by_cases hxt : x ≤ t <;> simp [hx, hxt] <;> omega

theorem notSingleLine_of_inner {lines : List Nat} {o : Nat} {sp : Span} (ho : o ∈ lines)
    (hs : sp.s < o) (ht : o ≤ sp.t) : isSingleLine lines sp = false := by
  have := lineOf_lt_inner lines ho hs ht
  unfold isSingleLine
  simp
  omega

theorem condenseExpr_rawlit (env : Env) (value : String) (sp : Span) (st : St)
    (hpre : value.startsWith "`" = true) (hnl : value.contains '\n' = true)
    (hlen : 2 ≤ value.length) :
    (condenseExpr env (.basicLit .str value sp) st).2 = st ∧
    ((condenseExpr env (.basicLit .str value sp) st).1 = true →
      isSingleLine st.lines sp = true) := by
  by_cases hcom : hasComments env (Expr.basicLit .str value sp).span = true
  · constructor <;> simp [condenseExpr, hcom]
  · simp only [Bool.not_eq_true] at hcom
    by_cases hsl : isSingleLine st.lines (Expr.basicLit .str value sp).span = true
    · constructor <;> simp [condenseExpr, hcom, hsl] <;> simpa [Expr.span] using hsl
    · simp only [Bool.not_eq_true] at hsl
      have heq : condenseExpr env (.basicLit .str value sp) st
          = condenseBasicLit env .str value sp st := by
        simp [condenseExpr, hcom, hsl]
      rw [heq]
      unfold condenseBasicLit
      have hlt : ¬(value.length < 2) := by omega
      simp [hpre, hlt, hnl]

theorem condenseExprList_pointwise (env : Env) (xs : List Expr) (st : St) (o : Nat)
    (hwf : ∀ x ∈ xs, exprWfB x = true) (hs : SortedL st.lines)
    (ho : ∀ x ∈ xs, o ≤ x.span.s ∨ x.span.t < o) :
    SortedL (condenseExprList env xs st).2.lines ∧
      (o ∈ (condenseExprList env xs st).2.lines ↔ o ∈ st.lines) := by
  induction xs generalizing st with
  | nil =>
    simp only [condenseExprList]
    exact ⟨hs, by simp⟩
  | cons x rest ih =>
    have f1 := condenseExpr_frame env x st (hwf x (List.mem_cons_self x rest)) hs
    have h1 := f1.2 o (ho x (List.mem_cons_self x rest))
    have ihres := ih (condenseExpr env x st).2
      (fun y hy => hwf y (List.mem_cons_of_mem _ hy)) f1.1
      (fun y hy => ho y (List.mem_cons_of_mem _ hy))
    simp only [condenseExprList]
    exact ⟨ihres.1, ihres.2.trans h1⟩

theorem condenseFieldTypes_pointwise (env : Env) (fs : List Field) (st : St) (o : Nat)
    (hwf : ∀ f ∈ fs, exprWfB f.typ = true) (hs : SortedL st.lines)
    (ho : ∀ f ∈ fs, o ≤ f.typ.span.s ∨ f.typ.span.t < o) :
    SortedL (condenseFieldTypes env fs st).2.lines ∧
      (o ∈ (condenseFieldTypes env fs st).2.lines ↔ o ∈ st.lines) := by
  induction fs generalizing st with
  | nil =>
    simp only [condenseFieldTypes]
    exact ⟨hs, by simp⟩
  | cons f rest ih =>
    cases f with
    | mk t =>
      have f1 := condenseExpr_frame env t st (hwf (.mk t) (List.mem_cons_self _ rest)) hs
      have h1 := f1.2 o (ho (.mk t) (List.mem_cons_self _ rest))
      have ihres := ih (condenseExpr env t st).2
        (fun y hy => hwf y (List.mem_cons_of_mem _ hy)) f1.1
        (fun y hy => ho y (List.mem_cons_of_mem _ hy))
      simp only [condenseFieldTypes]
      exact ⟨ihres.1, ihres.2.trans h1⟩


theorem condenseExprList_rawlit (env : Env) (pre post : List Expr) (value : String)
    (litsp : Span) (st : St) (o : Nat)
    (hpre : value.startsWith "`" = true) (hnl : value.contains '\n' = true)
    (hlen : 2 ≤ value.length)
    (hs : SortedL st.lines) (ho : o ∈ st.lines) (hos : litsp.s < o) (hot : o ≤ litsp.t)
    (hwf : ∀ x ∈ pre ++ post, exprWfB x = true)
    (hoth : ∀ x ∈ pre ++ post, o ≤ x.span.s ∨ x.span.t < o) :
    (condenseExprList env (pre ++ .basicLit .str value litsp :: post) st).1 = false ∧
    SortedL (condenseExprList env (pre ++ .basicLit .str value litsp :: post) st).2.lines ∧
    o ∈ (condenseExprList env (pre ++ .basicLit .str value litsp :: post) st).2.lines := by
  induction pre generalizing st with
  | nil =>
    simp only [List.nil_append, condenseExprList]
    have hr := condenseExpr_rawlit env value litsp st hpre hnl hlen
    have hslF : isSingleLine st.lines litsp = false := notSingleLine_of_inner ho hos hot
    have hflag : (condenseExpr env (.basicLit .str value litsp) st).1 = false := by
      cases hb : (condenseExpr env (.basicLit .str value litsp) st).1 with
      | false => rfl
      | true => exact absurd (hr.2 hb) (by simp [hslF])
    rw [hr.1]
    have hp := condenseExprList_pointwise env post st o (fun y hy => hwf y hy) hs
      (fun y hy => hoth y hy)
    refine ⟨?_, hp.1, hp.2.mpr ho⟩
    simp [hflag]
  | cons x pre2 ih =>
    simp only [List.cons_append, condenseExprList]
    have hx : exprWfB x = true := hwf x (List.mem_cons_self _ _)
    have hox := hoth x (List.mem_cons_self _ _)
    have f1 := condenseExpr_frame env x st hx hs
    have ihres := ih (condenseExpr env x st).2 f1.1 ((f1.2 o hox).mpr ho)
      (fun y hy => hwf y (List.mem_cons_of_mem x hy))
      (fun y hy => hoth y (List.mem_cons_of_mem x hy))
    refine ⟨?_, ihres.2.1, ihres.2.2⟩
    simp [ihres.1]

theorem condenseFieldTypes_rawlit (env : Env) (preF postF : List Field) (value : String)
    (litsp : Span) (st : St) (o : Nat)
    (hpre : value.startsWith "`" = true) (hnl : value.contains '\n' = true)
    (hlen : 2 ≤ value.length)
    (hs : SortedL st.lines) (ho : o ∈ st.lines) (hos : litsp.s < o) (hot : o ≤ litsp.t)
    (hwf : ∀ f ∈ preF ++ postF, exprWfB f.typ = true)
    (hoth : ∀ f ∈ preF ++ postF, o ≤ f.typ.span.s ∨ f.typ.span.t < o) :
    (condenseFieldTypes env (preF ++ .mk (.basicLit .str value litsp) :: postF) st).1 = false ∧
    SortedL (condenseFieldTypes env (preF ++ .mk (.basicLit .str value litsp) :: postF) st).2.lines ∧
    o ∈ (condenseFieldTypes env (preF ++ .mk (.basicLit .str value litsp) :: postF) st).2.lines := by
  induction preF generalizing st with
  | nil =>
    simp only [List.nil_append, condenseFieldTypes]
    have hr := condenseExpr_rawlit env value litsp st hpre hnl hlen
    have hslF : isSingleLine st.lines litsp = false := notSingleLine_of_inner ho hos hot
    have hflag : (condenseExpr env (.basicLit .str value litsp) st).1 = false := by
      cases hb : (condenseExpr env (.basicLit .str value litsp) st).1 with
      | false => rfl
      | true => exact absurd (hr.2 hb) (by simp [hslF])
    rw [hr.1]
    have hp := condenseFieldTypes_pointwise env postF st o (fun y hy => hwf y hy) hs
      (fun y hy => hoth y hy)
    refine ⟨?_, hp.1, hp.2.mpr ho⟩
    simp [hflag]
  | cons f preF2 ih =>
    cases f with
    | mk t =>
      simp only [List.cons_append, condenseFieldTypes]
      have hx : exprWfB t = true := hwf (.mk t) (List.mem_cons_self _ _)
      have hox := hoth (.mk t) (List.mem_cons_self _ _)
      have f1 := condenseExpr_frame env t st hx hs
      have ihres := ih (condenseExpr env t st).2 f1.1 ((f1.2 o hox).mpr ho)
        (fun y hy => hwf y (List.mem_cons_of_mem _ hy))
        (fun y hy => hoth y (List.mem_cons_of_mem _ hy))
      refine ⟨?_, ihres.2.1, ihres.2.2⟩
      simp [ihres.1]

theorem condenseCallExpr_rawlit (env : Env) (fn : Expr) (pre post : List Expr) (value : String)
    (litsp sp : Span) (st : St) (o : Nat)
    (hpre : value.startsWith "`" = true) (hnl : value.contains '\n' = true)
    (hlen : 2 ≤ value.length)
    (hs : SortedL st.lines) (ho : o ∈ st.lines) (hos : litsp.s < o) (hot : o ≤ litsp.t)
    (hsp : sp.s < o ∧ o ≤ sp.t)
    (hfn : exprWfB fn = true) (hofn : o ≤ fn.span.s ∨ fn.span.t < o)
    (hwf : ∀ x ∈ pre ++ post, exprWfB x = true)
    (hoth : ∀ x ∈ pre ++ post, o ≤ x.span.s ∨ x.span.t < o) :
    (condenseCallExpr env fn (pre ++ .basicLit .str value litsp :: post) sp st).1 = false ∧
    o ∈ (condenseCallExpr env fn (pre ++ .basicLit .str value litsp :: post) sp st).2.lines ∧
    isSingleLine (condenseCallExpr env fn (pre ++ .basicLit .str value litsp :: post) sp st).2.lines sp
      = false := by
  have hsl : isSingleLine st.lines sp = false := notSingleLine_of_inner ho hsp.1 hsp.2
  by_cases hgate : (!(featHas env.config.enable Calls) || hasComments env sp) = true
  · have heq : condenseCallExpr env fn (pre ++ .basicLit .str value litsp :: post) sp st
        = (false, st) := by
      simp only [condenseCallExpr]
      rw [if_pos hgate]
    rw [heq]
    exact ⟨rfl, ho, hsl⟩
  · have f1 := condenseExpr_frame env fn st hfn hs
    have ho1 : o ∈ (condenseExpr env fn st).2.lines := (f1.2 o hofn).mpr ho
    have hlist := condenseExprList_rawlit env pre post value litsp (condenseExpr env fn st).2 o
      hpre hnl hlen f1.1 ho1 hos hot hwf hoth
    have heq : condenseCallExpr env fn (pre ++ .basicLit .str value litsp :: post) sp st
        = (false, (condenseExprList env (pre ++ .basicLit .str value litsp :: post)
            (condenseExpr env fn st).2).2) := by
      simp only [condenseCallExpr]
      rw [if_neg hgate, if_neg (by simp [hsl]), if_pos (by simp [hlist.1])]
    rw [heq]
    exact ⟨rfl, hlist.2.2, notSingleLine_of_inner hlist.2.2 hsp.1 hsp.2⟩

theorem condenseCompositeLit_rawlit (env : Env) (typ : Option Expr) (pre post : List Expr)
    (value : String) (litsp sp : Span) (st : St) (o : Nat)
    (hpre : value.startsWith "`" = true) (hnl : value.contains '\n' = true)
    (hlen : 2 ≤ value.length)
    (hs : SortedL st.lines) (ho : o ∈ st.lines) (hos : litsp.s < o) (hot : o ≤ litsp.t)
    (hsp : sp.s < o ∧ o ≤ sp.t)
    (hwf : ∀ x ∈ pre ++ post, exprWfB x = true)
    (hoth : ∀ x ∈ pre ++ post, o ≤ x.span.s ∨ x.span.t < o) :
    (condenseCompositeLit env typ (pre ++ .basicLit .str value litsp :: post) sp st).1 = false ∧
    o ∈ (condenseCompositeLit env typ (pre ++ .basicLit .str value litsp :: post) sp st).2.lines ∧
    isSingleLine
      (condenseCompositeLit env typ (pre ++ .basicLit .str value litsp :: post) sp st).2.lines sp
      = false := by
  have hsl : isSingleLine st.lines sp = false := notSingleLine_of_inner ho hsp.1 hsp.2
  by_cases hg1 : (hasComments env sp
      || (pre ++ .basicLit .str value litsp :: post).any isComplexExpr) = true
  · have heq : condenseCompositeLit env typ (pre ++ .basicLit .str value litsp :: post) sp st
        = (false, st) := by
      simp only [condenseCompositeLit]
      rw [if_pos hg1]
    rw [heq]
    exact ⟨rfl, ho, hsl⟩
  · by_cases hg2 : featHas env.config.enable
        (compositeFeature typ (pre ++ .basicLit .str value litsp :: post)) = true
    · by_cases hg3 : ((compositeFeature typ (pre ++ .basicLit .str value litsp :: post) == Structs
          || compositeFeature typ (pre ++ .basicLit .str value litsp :: post) == Maps)
          && decide ((pre ++ .basicLit .str value litsp :: post).length
              > env.config.maxKeyValue)) = true
      · have heq : condenseCompositeLit env typ (pre ++ .basicLit .str value litsp :: post) sp st
            = (false, st) := by
          simp only [condenseCompositeLit]
          rw [if_neg hg1, if_neg (by simp [hsl]), if_neg (by simp [hg2]), if_pos hg3]
        rw [heq]
        exact ⟨rfl, ho, hsl⟩
      · have hlist := condenseExprList_rawlit env pre post value litsp st o
          hpre hnl hlen hs ho hos hot hwf hoth
        have heq : condenseCompositeLit env typ (pre ++ .basicLit .str value litsp :: post) sp st
            = (false, (condenseExprList env (pre ++ .basicLit .str value litsp :: post) st).2) := by
          simp only [condenseCompositeLit]
          rw [if_neg hg1, if_neg (by simp [hsl]), if_neg (by simp [hg2]), if_neg hg3,
            if_pos (by simp [hlist.1])]
        rw [heq]
        exact ⟨rfl, hlist.2.2, notSingleLine_of_inner hlist.2.2 hsp.1 hsp.2⟩
    · simp only [Bool.not_eq_true] at hg2
      have heq : condenseCompositeLit env typ (pre ++ .basicLit .str value litsp :: post) sp st
          = (false, st) := by
        simp only [condenseCompositeLit]
        rw [if_neg hg1, if_neg (by simp [hsl]), if_pos (by simp [hg2])]
      rw [heq]
      exact ⟨rfl, ho, hsl⟩

theorem condenseFieldList_rawlit (env : Env) (preF postF : List Field) (value : String)
    (litsp flsp : Span) (feature : Feature) (st : St) (o : Nat)
    (hpre : value.startsWith "`" = true) (hnl : value.contains '\n' = true)
    (hlen : 2 ≤ value.length)
    (hs : SortedL st.lines) (ho : o ∈ st.lines) (hos : litsp.s < o) (hot : o ≤ litsp.t)
    (hsp : flsp.s < o ∧ o ≤ flsp.t)
    (hwf : ∀ f ∈ preF ++ postF, exprWfB f.typ = true)
    (hoth : ∀ f ∈ preF ++ postF, o ≤ f.typ.span.s ∨ f.typ.span.t < o) :
    (condenseFieldList env (.mk (preF ++ .mk (.basicLit .str value litsp) :: postF) flsp)
      feature st).1 = false ∧
    o ∈ (condenseFieldList env (.mk (preF ++ .mk (.basicLit .str value litsp) :: postF) flsp)
      feature st).2.lines ∧
    isSingleLine (condenseFieldList env
      (.mk (preF ++ .mk (.basicLit .str value litsp) :: postF) flsp) feature st).2.lines flsp
      = false := by
  have hsl : isSingleLine st.lines flsp = false := notSingleLine_of_inner ho hsp.1 hsp.2
  by_cases hgate : (!(featHas env.config.enable feature) || hasComments env flsp) = true
  · have heq : condenseFieldList env (.mk (preF ++ .mk (.basicLit .str value litsp) :: postF) flsp)
        feature st = (false, st) := by
      simp only [condenseFieldList]
      rw [if_neg (by simp [hsl]), if_pos hgate]
    rw [heq]
    exact ⟨rfl, ho, hsl⟩
  · have hlist := condenseFieldTypes_rawlit env preF postF value litsp st o
      hpre hnl hlen hs ho hos hot hwf hoth
    have heq : condenseFieldList env (.mk (preF ++ .mk (.basicLit .str value litsp) :: postF) flsp)
        feature st
        = (false, (condenseFieldTypes env (preF ++ .mk (.basicLit .str value litsp) :: postF)
            st).2) := by
      simp only [condenseFieldList]
      rw [if_neg (by simp [hsl]), if_neg hgate, if_pos (by simp [hlist.1])]
    rw [heq]
    exact ⟨rfl, hlist.2.2, notSingleLine_of_inner hlist.2.2 hsp.1 hsp.2⟩

/-- Claim C10: a backquote-delimited raw string literal whose value
contains a newline is never condensed: `condenseExpr` leaves the state
untouched and succeeds only if the literal was already single-line (which
its interior newline, a line start strictly inside its span, rules out).
And a call, composite literal or field list containing such a literal —
with the newline's offset `o` inside the literal and outside the sibling
children — fails to condense and remains multi-line: its span still
crosses the preserved line start `o`. -/
theorem C10_raw_strings_preserved :
    (∀ (env : Env) (value : String) (sp : Span) (st : St),
      value.startsWith "`" = true → value.contains '\n' = true → 2 ≤ value.length →
        (condenseExpr env (.basicLit .str value sp) st).2 = st ∧
        ((condenseExpr env (.basicLit .str value sp) st).1 = true →
          isSingleLine st.lines sp = true)) ∧
    (∀ (env : Env) (fn : Expr) (pre post : List Expr) (value : String) (litsp sp : Span)
        (st : St) (o : Nat),
      value.startsWith "`" = true → value.contains '\n' = true → 2 ≤ value.length →
      SortedL st.lines → o ∈ st.lines → litsp.s < o → o ≤ litsp.t →
      sp.s < o ∧ o ≤ sp.t →
      exprWfB fn = true → (o ≤ fn.span.s ∨ fn.span.t < o) →
      (∀ x ∈ pre ++ post, exprWfB x = true) →
      (∀ x ∈ pre ++ post, o ≤ x.span.s ∨ x.span.t < o) →
        (condenseCallExpr env fn (pre ++ .basicLit .str value litsp :: post) sp st).1 = false ∧
        o ∈ (condenseCallExpr env fn (pre ++ .basicLit .str value litsp :: post) sp st).2.lines ∧
        isSingleLine
          (condenseCallExpr env fn (pre ++ .basicLit .str value litsp :: post) sp st).2.lines sp
          = false) ∧
    (∀ (env : Env) (typ : Option Expr) (pre post : List Expr) (value : String) (litsp sp : Span)
        (st : St) (o : Nat),
      value.startsWith "`" = true → value.contains '\n' = true → 2 ≤ value.length →
      SortedL st.lines → o ∈ st.lines → litsp.s < o → o ≤ litsp.t →
      sp.s < o ∧ o ≤ sp.t →
      (∀ x ∈ pre ++ post, exprWfB x = true) →
      (∀ x ∈ pre ++ post, o ≤ x.span.s ∨ x.span.t < o) →
        (condenseCompositeLit env typ (pre ++ .basicLit .str value litsp :: post) sp st).1
          = false ∧
        o ∈ (condenseCompositeLit env typ (pre ++ .basicLit .str value litsp :: post)
          sp st).2.lines ∧
        isSingleLine (condenseCompositeLit env typ (pre ++ .basicLit .str value litsp :: post)
          sp st).2.lines sp = false) ∧
    (∀ (env : Env) (preF postF : List Field) (value : String) (litsp flsp : Span)
        (feature : Feature) (st : St) (o : Nat),
      value.startsWith "`" = true → value.contains '\n' = true → 2 ≤ value.length →
      SortedL st.lines → o ∈ st.lines → litsp.s < o → o ≤ litsp.t →
      flsp.s < o ∧ o ≤ flsp.t →
      (∀ f ∈ preF ++ postF, exprWfB f.typ = true) →
      (∀ f ∈ preF ++ postF, o ≤ f.typ.span.s ∨ f.typ.span.t < o) →
        (condenseFieldList env (.mk (preF ++ .mk (.basicLit .str value litsp) :: postF) flsp)
          feature st).1 = false ∧
        o ∈ (condenseFieldList env (.mk (preF ++ .mk (.basicLit .str value litsp) :: postF) flsp)
          feature st).2.lines ∧
        isSingleLine (condenseFieldList env
          (.mk (preF ++ .mk (.basicLit .str value litsp) :: postF) flsp) feature st).2.lines flsp
          = false) :=
  ⟨fun env value sp st h1 h2 h3 => condenseExpr_rawlit env value sp st h1 h2 h3,
   fun env fn pre post value litsp sp st o h1 h2 h3 h4 h5 h6 h7 h8 h9 h10 h11 h12 =>
     condenseCallExpr_rawlit env fn pre post value litsp sp st o h1 h2 h3 h4 h5 h6 h7 h8 h9 h10
       h11 h12,
   fun env typ pre post value litsp sp st o h1 h2 h3 h4 h5 h6 h7 h8 h9 h10 =>
     condenseCompositeLit_rawlit env typ pre post value litsp sp st o h1 h2 h3 h4 h5 h6 h7 h8
       h9 h10,
   fun env preF postF value litsp flsp feature st o h1 h2 h3 h4 h5 h6 h7 h8 h9 h10 =>
     condenseFieldList_rawlit env preF postF value litsp flsp feature st o h1 h2 h3 h4 h5 h6 h7
       h8 h9 h10⟩

set_option maxRecDepth 10000 in
unseal condenseExpr condenseExprList condenseCallExpr condenseCompositeLit condenseFuncLit condenseFieldTypes condenseFieldList condenseFieldListO runCombo tryCombos condenseFuncType exprWfB exprInB exprsInB blockWfB fieldListWfB fieldsInB optFieldListInB funcTyWfB String.substrEq.loop String.anyAux in
/-- Claim C10 witness: the call-container conjunct applied to the concrete
call whose only argument is the raw string literal with a newline. -/
theorem C10_raw_strings_preserved_witness :
    (condenseCallExpr envC10 (.atom ⟨0, 1⟩) ([] ++ .basicLit .str rawC10 ⟨2, 24⟩ :: [])
      ⟨0, 25⟩ stC10).1 = false ∧
    (10 : Nat) ∈ (condenseCallExpr envC10 (.atom ⟨0, 1⟩)
      ([] ++ .basicLit .str rawC10 ⟨2, 24⟩ :: []) ⟨0, 25⟩ stC10).2.lines ∧
    isSingleLine (condenseCallExpr envC10 (.atom ⟨0, 1⟩)
      ([] ++ .basicLit .str rawC10 ⟨2, 24⟩ :: []) ⟨0, 25⟩ stC10).2.lines ⟨0, 25⟩ = false :=
  C10_raw_strings_preserved.2.1 envC10 (.atom ⟨0, 1⟩) [] [] rawC10 ⟨2, 24⟩ ⟨0, 25⟩ stC10 10
    (by decide) (by decide) (by decide) (by unfold SortedL; decide) (by decide) (by decide)
    (by decide) ⟨by decide, by decide⟩ (by decide) (by decide) (by decide) (by decide)

end GoCondense
